import Mathlib

/-!
Verification development for the columnar codec engine of the serde_arrow
repository.  Definitions are shallow embeddings of the Rust sources under
`src/serde_arrow/src`; buffer primitives and helper modules that are not part
of the reviewed sources are modelled from the specification and marked as
such in their doc comments.
-/

/-- Modelled from the spec: the error type of the crate (error.rs is not part
of the reviewed sources).  An error carries a message and the accumulated
annotations, key-value pairs such as the dotted field path (spec section 7). -/
structure SAError where
  msg : String
  annotations : List (String × String)
deriving Repr, DecidableEq

/-- Modelled from the spec: `annotate_unannotated` (error.rs is not part of the
reviewed sources) applies the annotation only when the error does not yet
carry one, so the innermost, most precise field path is kept during the
inner-to-outer annotation merge (spec section 7). -/
def SAError.annotate_unannotated (e : SAError) (k v : String) : SAError :=
  if e.annotations.isEmpty then { e with annotations := [(k, v)] } else e

def mkErr (msg : String) : SAError := { msg := msg, annotations := [] }

/-- Modelled from the spec: pushing one bit to the mutable validity bitmap of a
builder (array_ext.rs is not part of the reviewed sources).  A column without
a bitmap accepts only valid entries; pushing a null to it is an error. -/
def pushValidity (v : Option (List Bool)) (b : Bool) :
    Except SAError (Option (List Bool)) :=
  match v with
  | some bits => .ok (some (bits ++ [b]))
  | none =>
    if b then .ok none
    else .error (mkErr "Cannot push null for non-nullable array")

/-- Modelled from the spec: the accumulating state of a primitive integer
builder (int_builder.rs and array_ext.rs are not part of the reviewed
sources): a value buffer plus an optional validity bitmap (spec section 4.2). -/
structure IntArrayState where
  values : List Int
  validity : Option (List Bool)
deriving Repr, DecidableEq

def IntArrayState.new (is_nullable : Bool) : IntArrayState :=
  { values := [], validity := if is_nullable then some [] else none }

def IntArrayState.push_scalar_value (st : IntArrayState) (v : Int) :
    Except SAError IntArrayState := do
  let val ← pushValidity st.validity true
  .ok { values := st.values ++ [v], validity := val }

def IntArrayState.push_scalar_none (st : IntArrayState) :
    Except SAError IntArrayState := do
  let val ← pushValidity st.validity false
  .ok { values := st.values ++ [0], validity := val }

def IntArrayState.push_scalar_default (st : IntArrayState) :
    Except SAError IntArrayState := do
  let val ← pushValidity st.validity true
  .ok { values := st.values ++ [0], validity := val }

def IntArrayState.take (st : IntArrayState) : IntArrayState × IntArrayState :=
  (st, IntArrayState.new st.validity.isSome)

/-- Modelled from the spec: the accumulating state of a bytes/string builder
(array_ext.rs is not part of the reviewed sources): a flat data buffer, a
monotone offsets buffer starting at 0, and an optional validity bitmap.
Strings are modelled by their byte lists (the source pushes the raw bytes of
the string). -/
structure BytesArrayState where
  data : List Nat
  offsets : List Nat
  validity : Option (List Bool)
deriving Repr, DecidableEq

def BytesArrayState.new (is_nullable : Bool) : BytesArrayState :=
  { data := [], offsets := [0],
    validity := if is_nullable then some [] else none }

def BytesArrayState.push_scalar_value (st : BytesArrayState) (v : List Nat) :
    Except SAError BytesArrayState := do
  let val ← pushValidity st.validity true
  .ok { data := st.data ++ v,
        offsets := st.offsets ++ [st.offsets.getLastD 0 + v.length],
        validity := val }

def BytesArrayState.push_scalar_none (st : BytesArrayState) :
    Except SAError BytesArrayState := do
  let val ← pushValidity st.validity false
  .ok { data := st.data,
        offsets := st.offsets ++ [st.offsets.getLastD 0],
        validity := val }

def BytesArrayState.push_scalar_default (st : BytesArrayState) :
    Except SAError BytesArrayState := do
  let val ← pushValidity st.validity true
  .ok { data := st.data,
        offsets := st.offsets ++ [st.offsets.getLastD 0],
        validity := val }

def BytesArrayState.take (st : BytesArrayState) :
    BytesArrayState × BytesArrayState :=
  (st, BytesArrayState.new st.validity.isSome)

/-- Modelled from the spec: the offsets state of a list builder
(`OffsetsArray` in array_ext.rs, not part of the reviewed sources).
`start_seq` opens a new offset slot, `push_seq_elements` increments the
pending element count, `end_seq` commits the final offset, `push_seq_none`
commits a zero-length slot with a cleared validity bit (spec section 4.3).
Committing a row also resets the pending count. -/
structure OffsetsState where
  offsets : List Nat
  pending : Nat
  validity : Option (List Bool)
deriving Repr, DecidableEq

def OffsetsState.new (is_nullable : Bool) : OffsetsState :=
  { offsets := [0], pending := 0,
    validity := if is_nullable then some [] else none }

def OffsetsState.start_seq (o : OffsetsState) : Except SAError OffsetsState :=
  .ok { o with pending := 0 }

def OffsetsState.push_seq_elements (o : OffsetsState) (n : Nat) :
    Except SAError OffsetsState :=
  .ok { o with pending := o.pending + n }

def OffsetsState.end_seq (o : OffsetsState) : Except SAError OffsetsState := do
  let val ← pushValidity o.validity true
  .ok { offsets := o.offsets ++ [o.offsets.getLastD 0 + o.pending],
        pending := 0, validity := val }

def OffsetsState.push_seq_none (o : OffsetsState) : Except SAError OffsetsState := do
  let val ← pushValidity o.validity false
  .ok { offsets := o.offsets ++ [o.offsets.getLastD 0],
        pending := 0, validity := val }

def OffsetsState.push_seq_default (o : OffsetsState) :
    Except SAError OffsetsState := do
  let val ← pushValidity o.validity true
  .ok { offsets := o.offsets ++ [o.offsets.getLastD 0],
        pending := 0, validity := val }

def OffsetsState.take (o : OffsetsState) : OffsetsState × OffsetsState :=
  (o, OffsetsState.new o.validity.isSome)

/-- Field metadata carried by nested builders (FieldMeta); opaque to the codec
and modelled by a plain name. -/
abbrev FieldMeta := String

/-- The builder dispatch envelope (array_builder.rs), restricted to the
variants whose builder implementations are among the reviewed sources:
the Utf8 string builder (utf8_builder.rs), the list builder
(list_builder.rs, with its child builder nested recursively), and a
primitive integer builder modelled from the spec as a representative
scalar variant.  Each variant carries the dotted path used by its error
annotator. -/
inductive ABuilder where
  | i32 (path : String) (st : IntArrayState)
  | utf8 (path : String) (st : BytesArrayState)
  | list (path : String) (meta : FieldMeta) (element : ABuilder)
      (offsets : OffsetsState)
deriving Repr, DecidableEq

/-- The generic value-emission events of the value protocol that the modelled
builders dispatch on (simple_serializer.rs method set; element events carry
the emission applied to the child builder, and byte values are emitted
through the integer event). -/
inductive SerEvent where
  | i32Ev (v : Int)
  | boolEv (b : Bool)
  | strEv (s : List Nat)
  | unitVariantEv (variant : List Nat)
  | noneEv
  | defaultEv
  | unitEv
  | seqStartEv
  | seqElementEv (v : SerEvent)
  | seqEndEv
  | bytesEv (bs : List Int)
  | newtypeVariantEv
  | tupleVariantStartEv
  | structVariantStartEv
deriving Repr, DecidableEq

def ABuilder.path : ABuilder → String
  | .i32 p _ => p
  | .utf8 p _ => p
  | .list p _ _ _ => p

/-- The per-variant error annotator: every builder inserts the "field" key
with its own dotted path through `annotate_unannotated`
(utf8_builder.rs lines 55-59, list_builder.rs lines 102-106). -/
def ABuilder.annotate_error (b : ABuilder) (e : SAError) : SAError :=
  e.annotate_unannotated "field" b.path

/-- The integer emission dispatched to one builder variant: the integer
builder pushes the value, every other modelled variant rejects it with a
construction error (trait defaults modelled from the spec). -/
def variantI32 : ABuilder → Int → Except SAError ABuilder
  | .i32 p st, v => (st.push_scalar_value v).map (.i32 p)
  | .utf8 _ _, _ => .error (mkErr "Utf8Builder cannot serialize i32")
  | .list _ _ _ _, _ => .error (mkErr "ListBuilder cannot serialize i32")

/-- The integer emission routed through the dispatch envelope: the variant
step with the failing errors annotated by the variant annotator
(array_builder.rs dispatch). -/
def envI32 (b : ABuilder) (v : Int) : Except SAError ABuilder :=
  (variantI32 b v).mapError b.annotate_error

/-- The loop body of `ListBuilder::serialize_bytes` (list_builder.rs lines
152-158): each byte increments the pending element count and is emitted to
the child builder through the envelope. -/
def bytesFold (el : ABuilder) (off : OffsetsState) :
    List Int → Except SAError (ABuilder × OffsetsState)
  | [] => .ok (el, off)
  | v :: vs => do
    let off2 ← off.push_seq_elements 1
    let el2 ← envI32 el v
    bytesFold el2 off2 vs

mutual

/-- The builder dispatch envelope step (array_builder.rs impl SimpleSerializer
for ArrayBuilder): every emission is forwarded to the wrapped variant and a
failing result is annotated by the wrapped variant annotator before
propagation. -/
def envStep (b : ABuilder) (ev : SerEvent) : Except SAError ABuilder :=
  (variantStep b ev).mapError b.annotate_error

/-- The per-variant emission behaviour: the Utf8 arms follow
utf8_builder.rs, the list arms follow list_builder.rs, the integer arms and
the rejecting trait defaults are modelled from the spec (section 4.2). -/
def variantStep : ABuilder → SerEvent → Except SAError ABuilder
  | b, .i32Ev v => variantI32 b v
  | .i32 p st, .noneEv => (st.push_scalar_none).map (.i32 p)
  | .i32 p st, .defaultEv => (st.push_scalar_default).map (.i32 p)
  | .i32 p st, .unitEv => (st.push_scalar_default).map (.i32 p)
  | .i32 _ _, _ => .error (mkErr "IntBuilder cannot serialize the given event")
  | .utf8 p st, .strEv s => (st.push_scalar_value s).map (.utf8 p)
  | .utf8 p st, .unitVariantEv s => (st.push_scalar_value s).map (.utf8 p)
  | .utf8 p st, .noneEv => (st.push_scalar_none).map (.utf8 p)
  | .utf8 p st, .defaultEv => (st.push_scalar_default).map (.utf8 p)
  | .utf8 p st, .unitEv => (st.push_scalar_default).map (.utf8 p)
  | .utf8 _ _, .newtypeVariantEv =>
      .error (mkErr "Cannot serialize enum with data as string")
  | .utf8 _ _, .tupleVariantStartEv =>
      .error (mkErr "Cannot serialize enum with data as string")
  | .utf8 _ _, .structVariantStartEv =>
      .error (mkErr "Cannot serialize enum with data as string")
  | .utf8 _ _, _ =>
      .error (mkErr "Utf8Builder cannot serialize the given event")
  | .list p m el off, .seqStartEv => (off.start_seq).map (.list p m el)
  | .list p m el off, .seqElementEv v => do
      let off2 ← off.push_seq_elements 1
      let el2 ← envStep el v
      .ok (.list p m el2 off2)
  | .list p m el off, .seqEndEv => (off.end_seq).map (.list p m el)
  | .list p m el off, .noneEv => (off.push_seq_none).map (.list p m el)
  | .list p m el off, .defaultEv => (off.push_seq_default).map (.list p m el)
  | .list p m el off, .unitEv => (off.push_seq_default).map (.list p m el)
  | .list p m el off, .bytesEv bs => do
      let off1 ← off.start_seq
      let r ← bytesFold el off1 bs
      let off3 ← r.snd.end_seq
      .ok (.list p m r.fst off3)
  | .list _ _ _ _, _ =>
      .error (mkErr "ListBuilder cannot serialize the given event")

end

/-- Folding a list of emission events through the dispatch envelope. -/
def envFold : ABuilder → List SerEvent → Except SAError ABuilder
  | b, [] => .ok b
  | b, e :: es => (envStep b e).bind (fun b2 => envFold b2 es)

/-- The detach-and-replace-with-empty operation of the builder family
(`take` in array_builder.rs lines 109-148, utf8_builder.rs lines 26-31 and
list_builder.rs lines 40-47): the first component is the detached previous
state, the second the replacement left behind. -/
def ABuilder.take : ABuilder → ABuilder × ABuilder
  | .i32 p st => (.i32 p (st.take).fst, .i32 p (st.take).snd)
  | .utf8 p st => (.utf8 p (st.take).fst, .utf8 p (st.take).snd)
  | .list p m el off =>
      (.list p m (el.take).fst (off.take).fst,
       .list p m (el.take).snd (off.take).snd)

/-- The number of accumulated logical rows of a builder. -/
def ABuilder.rows : ABuilder → Nat
  | .i32 _ st => st.values.length
  | .utf8 _ st => st.offsets.length - 1
  | .list _ _ _ off => off.offsets.length - 1

/-- The structural shape of a builder: variant kind, dotted path, field
metadata and nullability, recursively through nested children. -/
inductive BShape where
  | i32 (path : String) (nullable : Bool)
  | utf8 (path : String) (nullable : Bool)
  | list (path : String) (meta : FieldMeta) (nullable : Bool) (child : BShape)
deriving Repr, DecidableEq

def ABuilder.shape : ABuilder → BShape
  | .i32 p st => .i32 p st.validity.isSome
  | .utf8 p st => .utf8 p st.validity.isSome
  | .list p m el off => .list p m off.validity.isSome el.shape

/-- The dotted paths of a builder and of all its nested children. -/
def ABuilder.paths : ABuilder → List String
  | .i32 p _ => [p]
  | .utf8 p _ => [p]
  | .list p _ el _ => p :: el.paths

/-- A borrowed bit-packed validity view (`BitsWithOffset`): a base byte
buffer together with a bit offset (spec section 3). -/
structure BitsWithOffset where
  offset : Nat
  data : List Nat
deriving Repr, DecidableEq

/-- Modelled from the spec: testing bit i of a masked region as
byte at (offset+i)/8 shifted right by (offset+i) mod 8, masked with 1
(the utils module holding `bitset_is_set` is not part of the reviewed
sources; the formula is the one of spec section 3).  Reading past the byte
buffer is an error. -/
def bitset_is_set (bits : BitsWithOffset) (i : Nat) : Except String Bool :=
  match bits.data.get? ((bits.offset + i) / 8) with
  | some byte => .ok (((byte >>> ((bits.offset + i) % 8)) &&& 1) == 1)
  | none => .error "invalid bit access"

/-- Modelled from the spec: a child array deserializer (the full
ArrayDeserializer dispatch enum is not part of the reviewed sources),
abstracted as a forward-only cursor over decoded child values; a
deserialize call consumes exactly one value and exhaustion is fatal. -/
structure ChildDeserializer where
  values : List Nat
  pos : Nat
deriving Repr, DecidableEq

def ChildDeserializer.deserialize_next (c : ChildDeserializer) :
    Except String (Nat × ChildDeserializer) :=
  match c.values.get? c.pos with
  | some v => .ok (v, { c with pos := c.pos + 1 })
  | none => .error "Exhausted deserializer"

/-- The map deserializer state
(internal/deserialization/map_deserializer.rs lines 15-22): child key and
value deserializers, the borrowed offsets slice, the optional validity view
and the row/entry cursor `next`. -/
structure MapDeserializer where
  path : String
  key : ChildDeserializer
  value : ChildDeserializer
  offsets : List Int
  validity : Option BitsWithOffset
  next : Nat × Nat
deriving Repr, DecidableEq

/-- `MapDeserializer::peek_next` (map_deserializer.rs lines 44-53): bounds
check first, then the validity bit of the current row; never advances. -/
def MapDeserializer.peek_next (d : MapDeserializer) : Except String Bool :=
  if d.next.fst + 1 ≥ d.offsets.length then
    .error "Exhausted ListDeserializer"
  else
    match d.validity with
    | some validity => bitset_is_set validity d.next.fst
    | none => .ok true

/-- `MapDeserializer::consume_next` (map_deserializer.rs lines 55-57). -/
def MapDeserializer.consume_next (d : MapDeserializer) : MapDeserializer :=
  { d with next := (d.next.fst + 1, 0) }

/-- Conversion of a borrowed i32 offset into an index
(`usize::try_from`), failing on negative input. -/
def tryIntoUsize (v : Int) : Except String Nat :=
  if v < 0 then .error "cannot convert value to usize" else .ok v.toNat

/-- `MapAccess::next_key_seed` (map_deserializer.rs lines 97-114): fatal
when the row cursor has passed the last row; when the entry cursor has
passed the entry range of the current row the cursor moves to the next row
and the no-more-entries signal is returned; otherwise one key is consumed
from the key child deserializer.  The entry-range width is the usize
difference of the two offsets; the construction-time layout check
guarantees it does not underflow. -/
def MapDeserializer.next_key_seed (d : MapDeserializer) :
    Except String (Option Nat × MapDeserializer) :=
  let item := d.next.fst
  let entry := d.next.snd
  if item + 1 ≥ d.offsets.length then
    .error "Exhausted MapDeserializer"
  else do
    let start ← tryIntoUsize (d.offsets.getD item 0)
    let stop ← tryIntoUsize (d.offsets.getD (item + 1) 0)
    if entry ≥ stop - start then
      .ok (none, { d with next := (item + 1, 0) })
    else do
      let r ← d.key.deserialize_next
      .ok (some r.fst, { d with key := r.snd })

/-- `MapAccess::next_value_seed` (map_deserializer.rs lines 116-123): the
entry sub-cursor is incremented and one value is consumed from the value
child deserializer. -/
def MapDeserializer.next_value_seed (d : MapDeserializer) :
    Except String (Nat × MapDeserializer) :=
  let item := d.next.fst
  let entry := d.next.snd
  let d1 := { d with next := (item, entry + 1) }
  do
    let r ← d1.value.deserialize_next
    .ok (r.fst, { d1 with value := r.snd })

/-- A generic-value visitor for the map deserializer (serde Visitor seam):
the none answer and the map-access continuation handed the deserializer. -/
structure MapVisitor (α : Type) where
  visitNone : α
  visitMap : MapDeserializer → Except String (α × MapDeserializer)

/-- `MapDeserializer::deserialize_map` (map_deserializer.rs lines 89-92):
hands the deserializer to the visitor as the map access. -/
def MapDeserializer.deserialize_map (d : MapDeserializer)
    (vis : MapVisitor α) : Except String (α × MapDeserializer) :=
  vis.visitMap d

/-- `MapDeserializer::deserialize_any` (map_deserializer.rs lines 71-78):
peek validity first; a cleared bit emits the none answer and advances the
cursor, otherwise the kind-specific map extraction is delegated to. -/
def MapDeserializer.deserialize_any (d : MapDeserializer)
    (vis : MapVisitor α) : Except String (α × MapDeserializer) :=
  match d.peek_next with
  | .error e => .error e
  | .ok true => d.deserialize_map vis
  | .ok false => .ok (vis.visitNone, d.consume_next)

/-- Modelled from the spec: the primitive buffer cursor
(`ArrayBufferIterator`, whose utils module is not part of the reviewed
sources): peek-next is a bounds plus validity check that never advances,
consume-next moves forward one row, and a required read of a null or
exhausted position is fatal (spec section 4.4). -/
structure ArrayBufferIterator where
  buffer : List Int
  validity : Option BitsWithOffset
  next : Nat
deriving Repr, DecidableEq

def ArrayBufferIterator.peek_next (a : ArrayBufferIterator) :
    Except String Bool :=
  if a.next ≥ a.buffer.length then .error "Exhausted deserializer"
  else
    match a.validity with
    | some v => bitset_is_set v a.next
    | none => .ok true

def ArrayBufferIterator.consume_next (a : ArrayBufferIterator) :
    ArrayBufferIterator :=
  { a with next := a.next + 1 }

def ArrayBufferIterator.next_required (a : ArrayBufferIterator) :
    Except String (Int × ArrayBufferIterator) := do
  if (← a.peek_next) then
    match a.buffer.get? a.next with
    | some v => .ok (v, a.consume_next)
    | none => .error "Exhausted deserializer"
  else
    .error "missing value"

/-- The date32 deserializer state (date32_deserializer.rs lines 12-15). -/
structure Date32Deserializer where
  path : String
  array : ArrayBufferIterator
deriving Repr, DecidableEq

/-- A generic-value visitor for the date32 deserializer: the none answer
and the primitive i32 answer. -/
structure Date32Visitor (α : Type) where
  visitNone : α
  visitI32 : Int → α

/-- `Date32Deserializer::deserialize_i32` (date32_deserializer.rs lines
63-65): the required value at the cursor is visited. -/
def Date32Deserializer.deserialize_i32 (d : Date32Deserializer)
    (vis : Date32Visitor α) : Except String (α × Date32Deserializer) := do
  let r ← d.array.next_required
  .ok (vis.visitI32 r.fst, { d with array := r.snd })

/-- `Date32Deserializer::deserialize_any` (date32_deserializer.rs lines
45-52): peek validity first; a cleared bit emits the none answer and
advances the cursor, otherwise the kind-specific i32 extraction is
delegated to. -/
def Date32Deserializer.deserialize_any (d : Date32Deserializer)
    (vis : Date32Visitor α) : Except String (α × Date32Deserializer) :=
  match d.array.peek_next with
  | .error e => .error e
  | .ok true => d.deserialize_i32 vis
  | .ok false =>
      .ok (vis.visitNone, { d with array := d.array.consume_next })

/-- The semantic strategy tags consumed by the arrow2 deserializer builders
(schema::Strategy, reduced to the tags the reviewed sources dispatch on). -/
inductive Strategy where
  | utcStrAsDate64
  | mapAsStruct
deriving Repr, DecidableEq

/-- The physical kinds of the field descriptor tree
(GenericDataType as matched in arrow2_impl/deserialization.rs). -/
inductive GenericDataType where
  | null | bool | u8 | u16 | u32 | u64 | i8 | i16 | i32 | i64 | f32 | f64
  | date64 | utf8 | largeUtf8 | struct_ | list | largeList | map | union
  | dictionary | date32
deriving Repr, DecidableEq

/-- A field descriptor (GenericField): name, physical kind, optional
strategy tag and the ordered child descriptors. -/
inductive GenericField where
  | mk (name : String) (data_type : GenericDataType)
      (strategy : Option Strategy) (children : List GenericField)
deriving Repr

def GenericField.name : GenericField → String
  | .mk n _ _ _ => n

def GenericField.data_type : GenericField → GenericDataType
  | .mk _ t _ _ => t

def GenericField.strategy : GenericField → Option Strategy
  | .mk _ _ s _ => s

def GenericField.children : GenericField → List GenericField
  | .mk _ _ _ c => c

/-- The native primitive types distinguished by the arrow2 downcasts. -/
inductive PrimTy where
  | i8 | i16 | i32 | i64 | u8 | u16 | u32 | u64 | f16 | f32 | f64
deriving Repr, DecidableEq

/-- The two offset widths of the arrow2 variable-length arrays. -/
inductive OffTy where
  | o32 | o64
deriving Repr, DecidableEq

/-- The arrow2 union layout modes; only dense unions are supported. -/
inductive UnionMode where
  | dense | sparse
deriving Repr, DecidableEq

/-- The arrow2 backing arrays handed to the decode path, as the deep data
the downcasts of arrow2_impl/deserialization.rs discriminate on.  Primitive
payloads are carried as integers tagged with their native type. -/
inductive A2Array where
  | null (len : Nat)
  | boolean (values : List Bool) (validity : Option (List Bool))
  | primitive (ty : PrimTy) (values : List Int) (validity : Option (List Bool))
  | utf8 (oty : OffTy) (data : List Nat) (offsets : List Int)
      (validity : Option (List Bool))
  | struct_ (len : Nat) (values : List A2Array) (validity : Option (List Bool))
  | list (oty : OffTy) (offsets : List Int) (values : A2Array)
      (validity : Option (List Bool))
  | map (offsets : List Int) (entries : A2Array) (validity : Option (List Bool))
  | union (mode : UnionMode) (typeIds : List Int) (fields : List A2Array)
  | dictionary (len : Nat)
deriving Repr

/-- The logical length of an arrow2 array (`Array::len`). -/
def A2Array.len : A2Array → Nat
  | .null n => n
  | .boolean v _ => v.length
  | .primitive _ v _ => v.length
  | .utf8 _ _ o _ => o.length - 1
  | .struct_ n _ _ => n
  | .list _ o _ _ => o.length - 1
  | .map o _ _ => o.length - 1
  | .union _ t _ => t.length
  | .dictionary n => n

/-- The constructed deserializer family of the decode path
(ArrayDeserializer variants), holding the borrowed buffers each
`build_*` function extracts. -/
inductive ADeser where
  | nullD
  | boolD (buffer : List Bool) (validity : Option (List Bool))
  | intD (ty : PrimTy) (buffer : List Int) (validity : Option (List Bool))
  | floatD (ty : PrimTy) (buffer : List Int) (validity : Option (List Bool))
  | date64D (buffer : List Int) (validity : Option (List Bool)) (isUtc : Bool)
  | stringD (oty : OffTy) (buffer : List Nat) (offsets : List Int)
      (validity : Option (List Bool))
  | structD (fields : List (String × ADeser)) (validity : Option (List Bool))
      (len : Nat)
  | listD (oty : OffTy) (item : ADeser) (offsets : List Int)
      (validity : Option (List Bool))
  | mapD (key : ADeser) (value : ADeser) (offsets : List Int)
      (validity : Option (List Bool))
  | enumD (typeIds : List Int) (variants : List (String × ADeser))
deriving Repr

/-- `build_bool_deserializer` (arrow2_impl/deserialization.rs lines 73-87):
downcast to a boolean array or fail. -/
def build_bool_deserializer (array : A2Array) : Except String ADeser :=
  match array with
  | .boolean values validity => .ok (.boolD values validity)
  | _ => .error "cannot interpret array as Bool array"

/-- `build_integer_deserializer` (deserialization.rs lines 89-105):
downcast to the primitive array of the requested native type or fail. -/
def build_integer_deserializer (ty : PrimTy) (array : A2Array) :
    Except String ADeser :=
  match array with
  | .primitive ty2 values validity =>
      if ty2 = ty then .ok (.intD ty values validity)
      else .error "cannot interpret array as integer array"
  | _ => .error "cannot interpret array as integer array"

/-- `build_float_deserializer` (deserialization.rs lines 107-123). -/
def build_float_deserializer (ty : PrimTy) (array : A2Array) :
    Except String ADeser :=
  match array with
  | .primitive ty2 values validity =>
      if ty2 = ty then .ok (.floatD ty values validity)
      else .error "cannot interpret array as integer array"
  | _ => .error "cannot interpret array as integer array"

/-- `build_date64_deserializer` (deserialization.rs lines 125-138): an i64
primitive array, with the UTC flag taken from the field strategy. -/
def build_date64_deserializer (field : GenericField) (array : A2Array) :
    Except String ADeser :=
  match array with
  | .primitive .i64 values validity =>
      .ok (.date64D values validity (field.strategy = some .utcStrAsDate64))
  | _ => .error "cannot interpret array as integer array"

/-- `build_string_deserializer` (deserialization.rs lines 140-154). -/
def build_string_deserializer (oty : OffTy) (array : A2Array) :
    Except String ADeser :=
  match array with
  | .utf8 oty2 data offsets validity =>
      if oty2 = oty then .ok (.stringD oty data offsets validity)
      else .error "cannot interpret array as Utf8 array"
  | _ => .error "cannot interpret array as Utf8 array"

mutual

/-- `build_array_deserializer` (deserialization.rs lines 43-71): dispatch on
the declared physical kind of the field.  The first argument is a recursion
budget driving the nested construction; every property proved below holds
for every budget. -/
def build_array_deserializer :
    Nat → GenericField → A2Array → Except String ADeser
  | 0, _, _ => .error "recursion budget exhausted"
  | fuel + 1, field, array =>
    match field.data_type with
    | .null => .ok .nullD
    | .bool => build_bool_deserializer array
    | .u8 => build_integer_deserializer .u8 array
    | .u16 => build_integer_deserializer .u16 array
    | .u32 => build_integer_deserializer .u32 array
    | .u64 => build_integer_deserializer .u64 array
    | .i8 => build_integer_deserializer .i8 array
    | .i16 => build_integer_deserializer .i16 array
    | .i32 => build_integer_deserializer .i32 array
    | .i64 => build_integer_deserializer .i64 array
    | .f32 => build_float_deserializer .f32 array
    | .f64 => build_float_deserializer .f64 array
    | .date64 => build_date64_deserializer field array
    | .utf8 => build_string_deserializer .o32 array
    | .largeUtf8 => build_string_deserializer .o64 array
    | .struct_ => build_struct_deserializer fuel field array
    | .list => build_list_deserializer fuel .o32 field array
    | .largeList => build_list_deserializer fuel .o64 field array
    | .map => build_map_deserializer fuel field array
    | .union => build_union_deserializer fuel field array
    | _ => .error "Datatype is not supported for deserialization"

/-- `build_struct_deserializer` (deserialization.rs lines 156-174): downcast
to a struct array and build the per-field deserializers from its children. -/
def build_struct_deserializer :
    Nat → GenericField → A2Array → Except String ADeser
  | 0, _, _ => .error "recursion budget exhausted"
  | fuel + 1, field, array =>
    match array with
    | .struct_ _ values validity => do
        let r ← build_struct_fields fuel field.children values
        .ok (.structD r.fst validity r.snd)
    | _ => .error "Cannot convert array into struct"

/-- `build_struct_fields` (deserialization.rs lines 176-199): the field and
array arities must agree, the shared row count is the length of the first
array, and every array must have that length. -/
def build_struct_fields :
    Nat → List GenericField → List A2Array →
    Except String (List (String × ADeser) × Nat)
  | 0, _, _ => .error "recursion budget exhausted"
  | fuel + 1, fields, arrays =>
    if fields.length ≠ arrays.length then
      .error "different number of fields and arrays"
    else
      let len := (arrays.head?.map A2Array.len).getD 0
      do
        let ds ← build_fields_loop fuel fields arrays len
        .ok (ds, len)

/-- The per-field loop of `build_struct_fields`: the length check precedes
each nested construction. -/
def build_fields_loop :
    Nat → List GenericField → List A2Array → Nat →
    Except String (List (String × ADeser))
  | 0, _, _, _ => .error "recursion budget exhausted"
  | _ + 1, [], _, _ => .ok []
  | _ + 1, _ :: _, [], _ => .ok []
  | fuel + 1, f :: fs, a :: arrs, len =>
    if a.len ≠ len then
      .error "arrays of different lengths are not supported"
    else do
      let d ← build_array_deserializer fuel f a
      let rest ← build_fields_loop fuel fs arrs len
      .ok ((f.name, d) :: rest)

/-- `build_list_deserializer` (deserialization.rs lines 201-222). -/
def build_list_deserializer :
    Nat → OffTy → GenericField → A2Array → Except String ADeser
  | 0, _, _, _ => .error "recursion budget exhausted"
  | fuel + 1, oty, field, array =>
    match array with
    | .list oty2 offsets values validity =>
        if oty2 = oty then
          match field.children.head? with
          | none => .error "cannot get first child of list array"
          | some item_field => do
              let item ← build_array_deserializer fuel item_field values
              .ok (.listD oty item offsets validity)
        else .error "cannot interpret array as LargeList array"
    | _ => .error "cannot interpret array as LargeList array"

/-- `build_map_deserializer` (deserialization.rs lines 224-257). -/
def build_map_deserializer :
    Nat → GenericField → A2Array → Except String ADeser
  | 0, _, _ => .error "recursion budget exhausted"
  | fuel + 1, field, array =>
    match field.children.head? with
    | none => .error "cannot get children of map"
    | some entries_field =>
      match entries_field.children.head? with
      | none => .error "cannot get keys field"
      | some keys_field =>
        match entries_field.children.get? 1 with
        | none => .error "cannot get values field"
        | some values_field =>
          match array with
          | .map offsets entries validity =>
            match entries with
            | .struct_ _ evals _ =>
              match evals.head? with
              | none => .error "cannot get keys array of map entries"
              | some keys =>
                match evals.get? 1 with
                | none => .error "cannot get values array of map entries"
                | some vals => do
                    let k ← build_array_deserializer fuel keys_field keys
                    let v ← build_array_deserializer fuel values_field vals
                    .ok (.mapD k v offsets validity)
            | _ => .error "cannot convert map field into struct array"
          | _ => .error "cannot convert array into map array"

/-- `build_union_deserializer` (deserialization.rs lines 259-285): downcast
to a union array, require the dense layout, then build one variant
deserializer per declared child, addressed positionally by type id. -/
def build_union_deserializer :
    Nat → GenericField → A2Array → Except String ADeser
  | 0, _, _ => .error "recursion budget exhausted"
  | fuel + 1, field, array =>
    match array with
    | .union mode typeIds ufields =>
        if mode ≠ .dense then
          .error "Invalid data type: only dense unions are supported"
        else do
          let variants ← build_union_variants fuel field.children ufields 0
          .ok (.enumD typeIds variants)
    | _ => .error "Cannot interpret array as a union array"

/-- The enumerated variants loop of `build_union_deserializer`. -/
def build_union_variants :
    Nat → List GenericField → List A2Array → Nat →
    Except String (List (String × ADeser))
  | 0, _, _, _ => .error "recursion budget exhausted"
  | _ + 1, [], _, _ => .ok []
  | fuel + 1, f :: fs, ufields, idx =>
    match ufields.get? idx with
    | none => .error "Cannot get variant"
    | some child => do
        let d ← build_array_deserializer fuel f child
        let rest ← build_union_variants fuel fs ufields (idx + 1)
        .ok ((f.name, d) :: rest)

end

/-- `build_deserializer` (deserialization.rs lines 35-41): the outer
sequence adapter over the per-field deserializers and the shared row
count. -/
def build_deserializer (fuel : Nat) (fields : List GenericField)
    (arrays : List A2Array) :
    Except String (List (String × ADeser) × Nat) :=
  build_struct_fields fuel fields arrays

/-- Modelled from the spec: the scalar deserializer reading of an optional row
(IntegerDeserializer with deserialize_option; the integer deserializer module
is not part of the reviewed sources): a cleared validity bit yields none,
otherwise the value at the cursor (spec section 4.4). -/
def decodePrim : List Int → List Bool → List (Option Int)
  | v :: vs, b :: bs => (if b then some v else none) :: decodePrim vs bs
  | _, _ => []

/-- Modelled from the spec: the variable-length deserializer reading of
optional rows (string and list deserializer modules are not part of the
reviewed sources): row i spans the child positions between consecutive
offsets; a cleared validity bit yields none (spec sections 3 and 4.4). -/
def decodeSlices (data : List α) : List Nat → List Bool → List (Option (List α))
  | o1 :: o2 :: os, b :: bs =>
      (if b then some ((data.take o2).drop o1) else none)
        :: decodeSlices data (o2 :: os) bs
  | _, _ => []

/-- Modelled from the spec: the variable-length deserializer reading of
required rows of a column without a validity bitmap (absence means all
valid, spec section 3). -/
def decodeSlicesReq (data : List α) : List Nat → List (List α)
  | o1 :: o2 :: os => ((data.take o2).drop o1) :: decodeSlicesReq data (o2 :: os)
  | _ => []

/-- The emission event of one optional integer row (serde drives a Some
value through the inner serializer, a None through serialize_none). -/
def rowEventI32 : Option Int → SerEvent
  | some v => .i32Ev v
  | none => .noneEv

/-- The emission event of one optional string row. -/
def rowEventUtf8 : Option (List Nat) → SerEvent
  | some s => .strEv s
  | none => .noneEv

/-- The emission events of one optional list-of-integer row: a Some row is
one sequence-start, one element per item and one sequence-end; a None row
is a single none event. -/
def rowEventsList : Option (List Int) → List SerEvent
  | some l => .seqStartEv :: l.map (fun v => .seqElementEv (.i32Ev v)) ++ [.seqEndEv]
  | none => [.noneEv]

/-- Encoding a sequence of optional integers through the integer builder. -/
def encodeI32 (nullable : Bool) (xs : List (Option Int)) :
    Except SAError ABuilder :=
  envFold (.i32 "$" (IntArrayState.new nullable)) (xs.map rowEventI32)

/-- Encoding a sequence of optional strings through the Utf8 builder. -/
def encodeUtf8 (nullable : Bool) (xs : List (Option (List Nat))) :
    Except SAError ABuilder :=
  envFold (.utf8 "$" (BytesArrayState.new nullable)) (xs.map rowEventUtf8)

/-- Encoding a sequence of optional integer lists through the list builder
with a non-nullable integer child. -/
def encodeListI32 (nullable : Bool) (xs : List (Option (List Int))) :
    Except SAError ABuilder :=
  envFold
    (.list "$" "element" (.i32 "$.element" (IntArrayState.new false))
      (OffsetsState.new nullable))
    (xs.flatMap rowEventsList)

/-- Decoding the nullable integer column produced by a builder: the
deserializer construction checks the physical kind (as the arrow downcasts
do), then reads every row through the optional scalar extraction. -/
def decodeI32Col (b : ABuilder) : Except String (List (Option Int)) :=
  match b with
  | .i32 _ st =>
      match st.validity with
      | some bits => .ok (decodePrim st.values bits)
      | none => .ok (st.values.map some)
  | _ => .error "cannot interpret array as integer array"

/-- Decoding the non-nullable integer column produced by a builder. -/
def decodeI32ColReq (b : ABuilder) : Except String (List Int) :=
  match b with
  | .i32 _ st =>
      match st.validity with
      | some _ => .error "unexpected validity bitmap"
      | none => .ok st.values
  | _ => .error "cannot interpret array as integer array"

/-- Decoding the string column produced by a builder through the optional
variable-length extraction. -/
def decodeUtf8Col (b : ABuilder) : Except String (List (Option (List Nat))) :=
  match b with
  | .utf8 _ st =>
      match st.validity with
      | some bits => .ok (decodeSlices st.data st.offsets bits)
      | none => .ok ((decodeSlicesReq st.data st.offsets).map some)
  | _ => .error "cannot interpret array as Utf8 array"

/-- Decoding the non-nullable string column produced by a builder. -/
def decodeUtf8ColReq (b : ABuilder) : Except String (List (List Nat)) :=
  match b with
  | .utf8 _ st =>
      match st.validity with
      | some _ => .error "unexpected validity bitmap"
      | none => .ok (decodeSlicesReq st.data st.offsets)
  | _ => .error "cannot interpret array as Utf8 array"

/-- Decoding the list-of-integer column produced by a builder: the child
positions of row i are the child values between consecutive offsets,
decoded through the non-nullable integer child deserializer. -/
def decodeListI32Col (b : ABuilder) :
    Except String (List (Option (List Int))) :=
  match b with
  | .list _ _ (.i32 _ st) off =>
      match st.validity, off.validity with
      | none, some bits => .ok (decodeSlices st.values off.offsets bits)
      | none, none => .ok ((decodeSlicesReq st.values off.offsets).map some)
      | some _, _ => .error "unsupported nullable child layout"
  | _ => .error "cannot interpret array as LargeList array"

/-- Decoding the non-nullable list-of-integer column produced by a builder. -/
def decodeListI32ColReq (b : ABuilder) : Except String (List (List Int)) :=
  match b with
  | .list _ _ (.i32 _ st) off =>
      match st.validity, off.validity with
      | none, none => .ok (decodeSlicesReq st.values off.offsets)
      | _, _ => .error "unsupported list layout"
  | _ => .error "cannot interpret array as LargeList array"

/-- The encode-then-decode pipeline for a nullable integer column. -/
def roundtripI32Opt (xs : List (Option Int)) :
    Except String (List (Option Int)) :=
  match encodeI32 true xs with
  | .error _ => .error "serialization failed"
  | .ok b => decodeI32Col b

/-- The encode-then-decode pipeline for a non-nullable integer column. -/
def roundtripI32Req (xs : List Int) : Except String (List Int) :=
  match encodeI32 false (xs.map some) with
  | .error _ => .error "serialization failed"
  | .ok b => decodeI32ColReq b

/-- The encode-then-decode pipeline for a nullable string column. -/
def roundtripUtf8Opt (xs : List (Option (List Nat))) :
    Except String (List (Option (List Nat))) :=
  match encodeUtf8 true xs with
  | .error _ => .error "serialization failed"
  | .ok b => decodeUtf8Col b

/-- The encode-then-decode pipeline for a non-nullable string column. -/
def roundtripUtf8Req (xs : List (List Nat)) :
    Except String (List (List Nat)) :=
  match encodeUtf8 false (xs.map some) with
  | .error _ => .error "serialization failed"
  | .ok b => decodeUtf8ColReq b

/-- The encode-then-decode pipeline for a nullable list-of-integer column. -/
def roundtripListI32Opt (xs : List (Option (List Int))) :
    Except String (List (Option (List Int))) :=
  match encodeListI32 true xs with
  | .error _ => .error "serialization failed"
  | .ok b => decodeListI32Col b

/-- The encode-then-decode pipeline for a non-nullable list-of-integer
column. -/
def roundtripListI32Req (xs : List (List Int)) :
    Except String (List (List Int)) :=
  match encodeListI32 false (xs.map some) with
  | .error _ => .error "serialization failed"
  | .ok b => decodeListI32ColReq b

/-- The flat child data contributed by a sequence of optional rows. -/
def flattenSomes : List (Option (List α)) → List α
  | [] => []
  | some s :: xs => s ++ flattenSomes xs
  | none :: xs => flattenSomes xs

/-- The committed offsets contributed by a sequence of optional rows,
starting after position n. -/
def offsetsFrom (n : Nat) : List (Option (List α)) → List Nat
  | [] => []
  | some s :: xs => (n + s.length) :: offsetsFrom (n + s.length) xs
  | none :: xs => n :: offsetsFrom n xs

/-- The emission events accepted by a Utf8 string builder: the string
events valid for its kind (str and unit-variant) plus the universal
none, default and unit events. -/
def utf8Accepted : SerEvent → Bool
  | .strEv _ => true
  | .unitVariantEv _ => true
  | .noneEv => true
  | .defaultEv => true
  | .unitEv => true
  | _ => false

/-- The emission events of the list-builder protocol considered by the
offsets invariant: sequence-start, integer elements, sequence-end and
none. -/
def isListEvent : SerEvent → Bool
  | .seqStartEv => true
  | .seqElementEv (.i32Ev _) => true
  | .seqEndEv => true
  | .noneEv => true
  | _ => false

/-- The number of logical rows committed by a list of list-builder events:
one per sequence-end and one per none event. -/
def rowsCommitted (evs : List SerEvent) : Nat :=
  evs.countP (fun e =>
    match e with
    | .seqEndEv => true
    | .noneEv => true
    | _ => false)

/-- The number of element events in a list of list-builder events. -/
def elementsOf (evs : List SerEvent) : Nat :=
  evs.countP (fun e =>
    match e with
    | .seqElementEv _ => true
    | _ => false)

/-- Bitmap and offset consistency: every row whose validity bit is cleared
spans a zero-width offset slice. -/
def zeroWidthOk : List Nat → List Bool → Bool
  | o1 :: o2 :: os, b :: bs => (b || (o2 == o1)) && zeroWidthOk (o2 :: os) bs
  | _, _ => true

/-- The layout invariant of an offsets state: the committed offsets are
nonempty and non-decreasing, and when a validity bitmap is present it has
one bit per committed row and every invalid row has a zero-width slice. -/
def offsOk (o : OffsetsState) : Prop :=
  o.offsets ≠ [] ∧ List.Chain' (· ≤ ·) o.offsets ∧
    ∀ bits, o.validity = some bits →
      bits.length + 1 = o.offsets.length ∧ zeroWidthOk o.offsets bits = true

theorem exc_bind_ok {α β : Type _} (x : α) (f : α → Except String β) :
    (Except.ok x : Except String α) >>= f = f x := rfl

theorem exc_bind_error {α β : Type _} (e : String) (f : α → Except String β) :
    (Except.error e : Except String α) >>= f = Except.error e := rfl

theorem sa_bind_ok {α β : Type _} (x : α) (f : α → Except SAError β) :
    (Except.ok x : Except SAError α) >>= f = f x := rfl

theorem sa_bind_error {α β : Type _} (e : SAError) (f : α → Except SAError β) :
    (Except.error e : Except SAError α) >>= f = Except.error e := rfl

theorem exc_map_ok {ε α β : Type _} (f : α → β) (x : α) :
    Except.map f (Except.ok x : Except ε α) = .ok (f x) := rfl

theorem exc_map_error {ε α β : Type _} (f : α → β) (e : ε) :
    Except.map f (Except.error e : Except ε α) = .error e := rfl

theorem sa_mapError_ok {α : Type _} (f : SAError → SAError) (x : α) :
    Except.mapError f (Except.ok x : Except SAError α) = .ok x := rfl

theorem sa_mapError_error {α : Type _} (f : SAError → SAError) (e : SAError) :
    Except.mapError f (Except.error e : Except SAError α) = .error (f e) := rfl

/-- C2: a MapDeserializer whose row cursor has passed the last row answers
both peek_next and next_key_seed with an error; neither a default value,
nor a fresh-row None success, nor a wrap-around is possible at that point. -/
theorem C2_exhaustion_is_fatal (d : MapDeserializer)
    (h : d.next.fst + 1 ≥ d.offsets.length) :
    d.peek_next = .error "Exhausted ListDeserializer" ∧
    d.next_key_seed = .error "Exhausted MapDeserializer" := by
  refine ⟨?_, ?_⟩
  · unfold MapDeserializer.peek_next
    rw [if_pos h]
  · unfold MapDeserializer.next_key_seed
    rw [if_pos h]

theorem C2_witness :
    MapDeserializer.peek_next
        { path := "$", key := ⟨[], 0⟩, value := ⟨[], 0⟩, offsets := [0, 2],
          validity := none, next := (2, 0) }
      = .error "Exhausted ListDeserializer" ∧
    MapDeserializer.next_key_seed
        { path := "$", key := ⟨[], 0⟩, value := ⟨[], 0⟩, offsets := [0, 2],
          validity := none, next := (2, 0) }
      = .error "Exhausted MapDeserializer" :=
  C2_exhaustion_is_fatal
    { path := "$", key := ⟨[], 0⟩, value := ⟨[], 0⟩, offsets := [0, 2],
      validity := none, next := (2, 0) }
    (by decide)

/-- C3: a deserializer answering the generic extract-any request at a row
with a cleared validity bit emits the none answer and advances the cursor
by exactly one row, touching neither its children nor its buffer; at a row
with a set bit, or when the bitmap is absent, it delegates to the
kind-specific extraction.  Stated for both deserializers of the reviewed
sources, the map deserializer and the date32 deserializer. -/
theorem C3_extract_any_null_handling :
    (∀ {α : Type} (d : MapDeserializer) (vis : MapVisitor α)
        (bits : BitsWithOffset),
      d.next.fst + 1 < d.offsets.length →
      d.validity = some bits →
      bitset_is_set bits d.next.fst = .ok false →
      d.deserialize_any vis =
        .ok (vis.visitNone, { d with next := (d.next.fst + 1, 0) })) ∧
    (∀ {α : Type} (d : MapDeserializer) (vis : MapVisitor α),
      d.next.fst + 1 < d.offsets.length →
      (d.validity = none ∨
        ∃ bits, d.validity = some bits ∧
          bitset_is_set bits d.next.fst = .ok true) →
      d.deserialize_any vis = d.deserialize_map vis) ∧
    (∀ {α : Type} (d : Date32Deserializer) (vis : Date32Visitor α)
        (bits : BitsWithOffset),
      d.array.next < d.array.buffer.length →
      d.array.validity = some bits →
      bitset_is_set bits d.array.next = .ok false →
      d.deserialize_any vis =
        .ok (vis.visitNone,
          { d with array := { d.array with next := d.array.next + 1 } })) ∧
    (∀ {α : Type} (d : Date32Deserializer) (vis : Date32Visitor α),
      d.array.next < d.array.buffer.length →
      (d.array.validity = none ∨
        ∃ bits, d.array.validity = some bits ∧
          bitset_is_set bits d.array.next = .ok true) →
      d.deserialize_any vis = d.deserialize_i32 vis) := by
  refine ⟨?_, ?_, ?_, ?_⟩
  · intro α d vis bits hlt hval hbit
    unfold MapDeserializer.deserialize_any MapDeserializer.peek_next
    rw [if_neg (by omega)]
    simp only [hval, hbit]
    simp [MapDeserializer.consume_next, hval]
  · intro α d vis hlt hval
    unfold MapDeserializer.deserialize_any MapDeserializer.peek_next
    rcases hval with hnone | ⟨bits, hval, hbit⟩
    · rw [if_neg (by omega)]
      simp only [hnone]
    · rw [if_neg (by omega)]
      simp only [hval, hbit]
  · intro α d vis bits hlt hval hbit
    unfold Date32Deserializer.deserialize_any ArrayBufferIterator.peek_next
    rw [if_neg (by omega)]
    simp only [hval, hbit]
    simp [ArrayBufferIterator.consume_next, hval]
  · intro α d vis hlt hval
    unfold Date32Deserializer.deserialize_any ArrayBufferIterator.peek_next
    rcases hval with hnone | ⟨bits, hval, hbit⟩
    · rw [if_neg (by omega)]
      simp only [hnone]
    · rw [if_neg (by omega)]
      simp only [hval, hbit]

theorem C3_witness :
    MapDeserializer.deserialize_any
        { path := "$", key := ⟨[9], 0⟩, value := ⟨[9], 0⟩, offsets := [0, 0, 1],
          validity := some ⟨0, [2]⟩, next := (0, 0) }
        (⟨0, fun d => .ok (1, d)⟩ : MapVisitor Nat) =
      .ok (0, { path := "$", key := ⟨[9], 0⟩, value := ⟨[9], 0⟩,
                offsets := [0, 0, 1], validity := some ⟨0, [2]⟩,
                next := (1, 0) }) ∧
    Date32Deserializer.deserialize_any
        { path := "$", array := ⟨[7, 8], some ⟨0, [2]⟩, 0⟩ }
        (⟨0, fun v => v.toNat⟩ : Date32Visitor Nat) =
      .ok (0, { path := "$", array := ⟨[7, 8], some ⟨0, [2]⟩, 1⟩ }) := by
  constructor
  · exact C3_extract_any_null_handling.1
      { path := "$", key := ⟨[9], 0⟩, value := ⟨[9], 0⟩, offsets := [0, 0, 1],
        validity := some ⟨0, [2]⟩, next := (0, 0) }
      (⟨0, fun d => .ok (1, d)⟩ : MapVisitor Nat) ⟨0, [2]⟩
      (by decide) rfl rfl
  · exact C3_extract_any_null_handling.2.2.1
      { path := "$", array := ⟨[7, 8], some ⟨0, [2]⟩, 0⟩ }
      (⟨0, fun v => v.toNat⟩ : Date32Visitor Nat) ⟨0, [2]⟩
      (by decide) rfl rfl

/-- C4: for a MapDeserializer at row i, entry j of a non-exhausted row,
next_key_seed past the entry range moves the cursor to the next row and
returns the no-more-entries signal rather than an error; inside the range
it consumes exactly one key from the key child; and next_value_seed
increments the entry sub-cursor and consumes exactly one value from the
value child. -/
theorem C4_map_entry_iteration :
    (∀ (d : MapDeserializer) (i j start stop : Nat),
      d.next = (i, j) →
      i + 1 < d.offsets.length →
      tryIntoUsize (d.offsets.getD i 0) = .ok start →
      tryIntoUsize (d.offsets.getD (i + 1) 0) = .ok stop →
      (j ≥ stop - start →
        d.next_key_seed = .ok (none, { d with next := (i + 1, 0) })) ∧
      (j < stop - start →
        d.next_key_seed =
          (d.key.deserialize_next).map
            (fun r => (some r.fst, { d with key := r.snd })))) ∧
    (∀ (d : MapDeserializer) (i j : Nat),
      d.next = (i, j) →
      d.next_value_seed =
        (d.value.deserialize_next).map
          (fun r => (r.fst, { d with value := r.snd, next := (i, j + 1) }))) := by
  constructor
  · intro d i j start stop hnext hlt hstart hstop
    constructor
    · intro hge
      unfold MapDeserializer.next_key_seed
      rw [hnext]
      simp only
      rw [if_neg (by omega)]
      simp only [hnext, hstart, hstop]
      simp only [exc_bind_ok]
      rw [if_pos hge]
    · intro hjlt
      unfold MapDeserializer.next_key_seed
      rw [hnext]
      simp only
      rw [if_neg (by omega)]
      simp only [hnext, hstart, hstop]
      simp only [exc_bind_ok]
      rw [if_neg (by omega)]
      cases hk : d.key.deserialize_next with
      | error e => simp only [exc_bind_error, exc_map_error]
      | ok r => simp only [exc_bind_ok, exc_map_ok]
  · intro d i j hnext
    unfold MapDeserializer.next_value_seed
    rw [hnext]
    dsimp only
    cases hv : d.value.deserialize_next with
    | error e => simp only [hv, exc_bind_error, exc_map_error]
    | ok r => simp only [hv, exc_bind_ok, exc_map_ok]

theorem C4_witness :
    MapDeserializer.next_key_seed
        { path := "$", key := ⟨[11, 12], 0⟩, value := ⟨[21, 22], 0⟩,
          offsets := [0, 2], validity := none, next := (0, 2) }
      = .ok (none,
        { path := "$", key := ⟨[11, 12], 0⟩, value := ⟨[21, 22], 0⟩,
          offsets := [0, 2], validity := none, next := (1, 0) }) ∧
    MapDeserializer.next_key_seed
        { path := "$", key := ⟨[11, 12], 0⟩, value := ⟨[21, 22], 0⟩,
          offsets := [0, 2], validity := none, next := (0, 0) }
      = .ok (some 11,
        { path := "$", key := ⟨[11, 12], 1⟩, value := ⟨[21, 22], 0⟩,
          offsets := [0, 2], validity := none, next := (0, 0) }) ∧
    MapDeserializer.next_value_seed
        { path := "$", key := ⟨[11, 12], 0⟩, value := ⟨[21, 22], 0⟩,
          offsets := [0, 2], validity := none, next := (0, 0) }
      = .ok (21,
        { path := "$", key := ⟨[11, 12], 0⟩, value := ⟨[21, 22], 1⟩,
          offsets := [0, 2], validity := none, next := (0, 1) }) := by
  refine ⟨?_, ?_, ?_⟩
  · have h := (C4_map_entry_iteration.1
      { path := "$", key := ⟨[11, 12], 0⟩, value := ⟨[21, 22], 0⟩,
        offsets := [0, 2], validity := none, next := (0, 2) }
      0 2 0 2 rfl (by decide) rfl rfl).1 (by decide)
    rw [h]
  · have h := (C4_map_entry_iteration.1
      { path := "$", key := ⟨[11, 12], 0⟩, value := ⟨[21, 22], 0⟩,
        offsets := [0, 2], validity := none, next := (0, 0) }
      0 0 0 2 rfl (by decide) rfl rfl).2 (by decide)
    rw [h]
    rfl
  · have h := C4_map_entry_iteration.2
      { path := "$", key := ⟨[11, 12], 0⟩, value := ⟨[21, 22], 0⟩,
        offsets := [0, 2], validity := none, next := (0, 0) }
      0 0 rfl
    rw [h]
    rfl

/-- C9: take detaches the accumulated state of a builder, returning it by
value, and leaves behind a builder with the identical path, field metadata,
nullability and variant kind (its structural shape) but zero accumulated
rows. -/
theorem C9_take_detach_and_replace (b : ABuilder) :
    (b.take).fst = b ∧
    ((b.take).snd).shape = b.shape ∧
    ((b.take).snd).rows = 0 := by
  induction b with
  | i32 p st =>
      refine ⟨rfl, ?_, rfl⟩
      cases h : st.validity <;>
        simp [ABuilder.take, ABuilder.shape, IntArrayState.take,
          IntArrayState.new, h]
  | utf8 p st =>
      refine ⟨rfl, ?_, rfl⟩
      cases h : st.validity <;>
        simp [ABuilder.take, ABuilder.shape, BytesArrayState.take,
          BytesArrayState.new, h]
  | list p m el off ih =>
      refine ⟨?_, ?_, rfl⟩
      · simp [ABuilder.take, OffsetsState.take, ih.1]
      · simp only [ABuilder.take, ABuilder.shape]
        refine congrArg₂ _ ?_ ih.2.1
        cases h : off.validity <;> simp [OffsetsState.take, OffsetsState.new, h]

theorem build_fields_loop_len :
    ∀ (arrays : List A2Array) (fuel : Nat) (fields : List GenericField)
      (len : Nat) (ds : List (String × ADeser)),
      fields.length = arrays.length →
      build_fields_loop fuel fields arrays len = .ok ds →
      ∀ a ∈ arrays, a.len = len := by
  intro arrays
  induction arrays with
  | nil => intro fuel fields len ds hlen hok a ha; simp at ha
  | cons a arrs ih =>
    intro fuel fields len ds hlen hok b hb
    match fuel, fields with
    | 0, _ => simp [build_fields_loop] at hok
    | fuel + 1, [] => simp at hlen
    | fuel + 1, f :: fs =>
      unfold build_fields_loop at hok
      by_cases hl : a.len ≠ len
      · rw [if_pos hl] at hok
        exact absurd hok (by simp)
      · rw [if_neg hl] at hok
        push_neg at hl
        cases hb with
        | head => exact hl
        | tail _ hb =>
          cases hd : build_array_deserializer fuel f a with
          | error e => rw [hd, exc_bind_error] at hok; exact absurd hok (by simp)
          | ok d =>
            rw [hd, exc_bind_ok] at hok
            cases hrest : build_fields_loop fuel fs arrs len with
            | error e =>
                rw [hrest, exc_bind_error] at hok; exact absurd hok (by simp)
            | ok rest =>
                exact ih fuel fs len rest (by simpa using hlen) hrest b hb

/-- C8: the decode path fails at construction, before any row is read,
whenever the number of field descriptors differs from the number of
arrays, and a successful construction forces every top-level array to have
the shared row count taken from the first array; a union array that is not
in dense mode is likewise rejected at construction. -/
theorem C8_schema_mismatch_is_construction_error :
    (∀ (fuel : Nat) (fields : List GenericField) (arrays : List A2Array),
      fields.length ≠ arrays.length →
      build_struct_fields (fuel + 1) fields arrays =
        .error "different number of fields and arrays") ∧
    (∀ (fuel : Nat) (fields : List GenericField) (arrays : List A2Array)
        (out : List (String × ADeser) × Nat),
      build_struct_fields fuel fields arrays = .ok out →
      out.snd = ((arrays.head?.map A2Array.len).getD 0) ∧
      ∀ a ∈ arrays, a.len = out.snd) ∧
    (∀ (fuel : Nat) (field : GenericField) (typeIds : List Int)
        (ufields : List A2Array),
      build_union_deserializer (fuel + 1) field
          (.union .sparse typeIds ufields) =
        .error "Invalid data type: only dense unions are supported") := by
  refine ⟨?_, ?_, ?_⟩
  · intro fuel fields arrays hne
    unfold build_struct_fields
    rw [if_pos hne]
  · intro fuel fields arrays out hok
    match fuel with
    | 0 => simp [build_struct_fields] at hok
    | fuel + 1 =>
      unfold build_struct_fields at hok
      by_cases hne : fields.length ≠ arrays.length
      · rw [if_pos hne] at hok; exact absurd hok (by simp)
      · rw [if_neg hne] at hok
        dsimp only at hok
        push_neg at hne
        cases hloop : build_fields_loop fuel fields arrays
            ((arrays.head?.map A2Array.len).getD 0) with
        | error e => rw [hloop, exc_bind_error] at hok; exact absurd hok (by simp)
        | ok ds =>
          rw [hloop, exc_bind_ok] at hok
          have hout : out = (ds, (arrays.head?.map A2Array.len).getD 0) := by
            simpa using hok.symm
          subst hout
          exact ⟨rfl, build_fields_loop_len arrays fuel fields _ ds hne hloop⟩
  · intro fuel field typeIds ufields
    unfold build_union_deserializer
    simp

theorem C8_witness :
    build_struct_fields 1 [] [A2Array.null 3] =
      .error "different number of fields and arrays" ∧
    A2Array.len (A2Array.null 2) =
      ((([("a", ADeser.nullD)], 2) : List (String × ADeser) × Nat)).snd ∧
    build_union_deserializer 1 (.mk "u" .union none [])
        (.union .sparse [0] []) =
      .error "Invalid data type: only dense unions are supported" := by
  refine ⟨?_, ?_, ?_⟩
  · exact C8_schema_mismatch_is_construction_error.1 0 [] [A2Array.null 3]
      (by decide)
  · exact (C8_schema_mismatch_is_construction_error.2.1 3
      [GenericField.mk "a" .null none []] [A2Array.null 2]
      ([("a", ADeser.nullD)], 2)
      (by simp [build_struct_fields, build_fields_loop,
        build_array_deserializer, GenericField.data_type, GenericField.name,
        A2Array.len, sa_bind_ok, exc_bind_ok])).2 (A2Array.null 2) (by simp)
  · exact C8_schema_mismatch_is_construction_error.2.2 0
      (.mk "u" .union none []) [0] []

theorem envStep_i32_value (p : String) (st : IntArrayState) (v : Int) :
    envStep (.i32 p st) (.i32Ev v) =
      .ok (.i32 p { values := st.values ++ [v],
                    validity := st.validity.map (fun bits => bits ++ [true]) }) := by
  cases h : st.validity <;>
    simp [envStep, variantStep, variantI32, IntArrayState.push_scalar_value,
      pushValidity, h, sa_bind_ok, sa_mapError_ok, exc_map_ok]

theorem envStep_i32_none (p : String) (st : IntArrayState) (bits : List Bool)
    (h : st.validity = some bits) :
    envStep (.i32 p st) .noneEv =
      .ok (.i32 p { values := st.values ++ [0],
                    validity := some (bits ++ [false]) }) := by
  simp [envStep, variantStep, IntArrayState.push_scalar_none,
    pushValidity, h, sa_bind_ok, sa_mapError_ok, exc_map_ok]

theorem envStep_utf8_str (p : String) (st : BytesArrayState) (s : List Nat) :
    envStep (.utf8 p st) (.strEv s) =
      .ok (.utf8 p { data := st.data ++ s,
                     offsets := st.offsets ++ [st.offsets.getLastD 0 + s.length],
                     validity := st.validity.map (fun bits => bits ++ [true]) }) := by
  cases h : st.validity <;>
    simp [envStep, variantStep, BytesArrayState.push_scalar_value, pushValidity,
      h, sa_bind_ok, sa_mapError_ok, exc_map_ok]

theorem envStep_utf8_unitVariant (p : String) (st : BytesArrayState)
    (s : List Nat) :
    envStep (.utf8 p st) (.unitVariantEv s) =
      .ok (.utf8 p { data := st.data ++ s,
                     offsets := st.offsets ++ [st.offsets.getLastD 0 + s.length],
                     validity := st.validity.map (fun bits => bits ++ [true]) }) := by
  cases h : st.validity <;>
    simp [envStep, variantStep, BytesArrayState.push_scalar_value, pushValidity,
      h, sa_bind_ok, sa_mapError_ok, exc_map_ok]

theorem envStep_utf8_default (p : String) (st : BytesArrayState) :
    envStep (.utf8 p st) .defaultEv =
      .ok (.utf8 p { data := st.data,
                     offsets := st.offsets ++ [st.offsets.getLastD 0],
                     validity := st.validity.map (fun bits => bits ++ [true]) }) := by
  cases h : st.validity <;>
    simp [envStep, variantStep, BytesArrayState.push_scalar_default, pushValidity,
      h, sa_bind_ok, sa_mapError_ok, exc_map_ok]

theorem envStep_utf8_unit (p : String) (st : BytesArrayState) :
    envStep (.utf8 p st) .unitEv =
      .ok (.utf8 p { data := st.data,
                     offsets := st.offsets ++ [st.offsets.getLastD 0],
                     validity := st.validity.map (fun bits => bits ++ [true]) }) := by
  cases h : st.validity <;>
    simp [envStep, variantStep, BytesArrayState.push_scalar_default, pushValidity,
      h, sa_bind_ok, sa_mapError_ok, exc_map_ok]

theorem envStep_utf8_none (p : String) (st : BytesArrayState)
    (bits : List Bool) (h : st.validity = some bits) :
    envStep (.utf8 p st) .noneEv =
      .ok (.utf8 p { data := st.data,
                     offsets := st.offsets ++ [st.offsets.getLastD 0],
                     validity := some (bits ++ [false]) }) := by
  simp [envStep, variantStep, BytesArrayState.push_scalar_none, pushValidity,
    h, sa_bind_ok, sa_mapError_ok, exc_map_ok]

theorem envStep_list_seqStart (p : String) (m : FieldMeta) (el : ABuilder)
    (off : OffsetsState) :
    envStep (.list p m el off) .seqStartEv =
      .ok (.list p m el { off with pending := 0 }) := by
  simp [envStep, variantStep, OffsetsState.start_seq, sa_mapError_ok, exc_map_ok]

theorem envStep_list_seqElement (p : String) (m : FieldMeta) (el el2 : ABuilder)
    (off : OffsetsState) (ev : SerEvent) (h : envStep el ev = .ok el2) :
    envStep (.list p m el off) (.seqElementEv ev) =
      .ok (.list p m el2 { off with pending := off.pending + 1 }) := by
  rw [envStep, variantStep]
  simp [OffsetsState.push_seq_elements, sa_bind_ok, h, sa_mapError_ok]

theorem envStep_list_seqElement_error (p : String) (m : FieldMeta)
    (el : ABuilder) (off : OffsetsState) (ev : SerEvent) (e : SAError)
    (h : envStep el ev = .error e) :
    envStep (.list p m el off) (.seqElementEv ev) =
      .error ((ABuilder.list p m el off).annotate_error e) := by
  rw [envStep, variantStep]
  simp [OffsetsState.push_seq_elements, sa_bind_ok, h, sa_bind_error,
    sa_mapError_error]

theorem envStep_list_seqEnd (p : String) (m : FieldMeta) (el : ABuilder)
    (off : OffsetsState) :
    envStep (.list p m el off) .seqEndEv =
      .ok (.list p m el
        { offsets := off.offsets ++ [off.offsets.getLastD 0 + off.pending],
          pending := 0,
          validity := off.validity.map (fun bits => bits ++ [true]) }) := by
  cases h : off.validity <;>
    simp [envStep, variantStep, OffsetsState.end_seq, pushValidity, h,
      sa_bind_ok, sa_mapError_ok, exc_map_ok]

theorem envStep_list_none (p : String) (m : FieldMeta) (el : ABuilder)
    (off : OffsetsState) (bits : List Bool) (h : off.validity = some bits) :
    envStep (.list p m el off) .noneEv =
      .ok (.list p m el
        { offsets := off.offsets ++ [off.offsets.getLastD 0],
          pending := 0, validity := some (bits ++ [false]) }) := by
  simp [envStep, variantStep, OffsetsState.push_seq_none, pushValidity, h,
    sa_bind_ok, sa_mapError_ok, exc_map_ok]

theorem envFold_nil (b : ABuilder) : envFold b [] = .ok b := rfl

theorem envFold_cons (b : ABuilder) (e : SerEvent) (es : List SerEvent) :
    envFold b (e :: es) = (envStep b e).bind (fun b2 => envFold b2 es) := rfl

theorem excBind_ok {α β : Type _} (x : α) (f : α → Except SAError β) :
    Except.bind (Except.ok x) f = f x := rfl

theorem excBind_error {α β : Type _} (e : SAError)
    (f : α → Except SAError β) :
    Except.bind (Except.error e : Except SAError α) f = Except.error e := rfl

theorem envFold_append (b : ABuilder) (l1 l2 : List SerEvent) :
    envFold b (l1 ++ l2) = (envFold b l1).bind (fun b2 => envFold b2 l2) := by
  induction l1 generalizing b with
  | nil => simp [envFold_nil, excBind_ok]
  | cons e es ih =>
    rw [List.cons_append, envFold_cons, envFold_cons]
    cases h : envStep b e with
    | error err => simp [excBind_error]
    | ok b2 => simp [excBind_ok, ih]

/-- C6: a Utf8 string builder accepts exactly the string emission events of
its kind (str, unit-variant) plus the universal none, default and unit
events; every other emission event is an error, and in particular every
newtype-variant, tuple-variant-start or struct-variant-start event fails
with the cannot-serialize error regardless of prior state. -/
theorem C6_utf8_event_acceptance :
    (∀ (p : String) (st : BytesArrayState) (ev : SerEvent),
      utf8Accepted ev = false →
      (envStep (.utf8 p st) ev).isOk = false) ∧
    (∀ (p : String) (st : BytesArrayState) (s : List Nat),
      envStep (.utf8 p st) (.strEv s) =
        .ok (.utf8 p
          { data := st.data ++ s,
            offsets := st.offsets ++ [st.offsets.getLastD 0 + s.length],
            validity := st.validity.map (fun bits => bits ++ [true]) })) ∧
    (∀ (p : String) (st : BytesArrayState) (s : List Nat),
      envStep (.utf8 p st) (.unitVariantEv s) =
        .ok (.utf8 p
          { data := st.data ++ s,
            offsets := st.offsets ++ [st.offsets.getLastD 0 + s.length],
            validity := st.validity.map (fun bits => bits ++ [true]) })) ∧
    (∀ (p : String) (st : BytesArrayState),
      envStep (.utf8 p st) .defaultEv =
        .ok (.utf8 p
          { data := st.data,
            offsets := st.offsets ++ [st.offsets.getLastD 0],
            validity := st.validity.map (fun bits => bits ++ [true]) })) ∧
    (∀ (p : String) (st : BytesArrayState),
      envStep (.utf8 p st) .unitEv =
        .ok (.utf8 p
          { data := st.data,
            offsets := st.offsets ++ [st.offsets.getLastD 0],
            validity := st.validity.map (fun bits => bits ++ [true]) })) ∧
    (∀ (p : String) (st : BytesArrayState) (bits : List Bool),
      st.validity = some bits →
      envStep (.utf8 p st) .noneEv =
        .ok (.utf8 p
          { data := st.data,
            offsets := st.offsets ++ [st.offsets.getLastD 0],
            validity := some (bits ++ [false]) })) ∧
    (∀ (p : String) (st : BytesArrayState),
      envStep (.utf8 p st) .newtypeVariantEv =
        .error ⟨"Cannot serialize enum with data as string", [("field", p)]⟩ ∧
      envStep (.utf8 p st) .tupleVariantStartEv =
        .error ⟨"Cannot serialize enum with data as string", [("field", p)]⟩ ∧
      envStep (.utf8 p st) .structVariantStartEv =
        .error ⟨"Cannot serialize enum with data as string", [("field", p)]⟩) := by
  refine ⟨?_, envStep_utf8_str, envStep_utf8_unitVariant, envStep_utf8_default,
    envStep_utf8_unit, envStep_utf8_none, ?_⟩
  · intro p st ev h
    cases ev <;>
      simp_all [utf8Accepted, envStep, variantStep, variantI32,
        sa_mapError_error, Except.isOk, Except.toBool]
  · intro p st
    refine ⟨?_, ?_, ?_⟩ <;>
      simp [envStep, variantStep, sa_mapError_error, mkErr,
        ABuilder.annotate_error, SAError.annotate_unannotated, ABuilder.path]

theorem C6_witness :
    (envStep (.utf8 "$.s" (BytesArrayState.new true)) .seqStartEv).isOk
        = false ∧
    envStep (.utf8 "$.s" (BytesArrayState.new true)) .noneEv =
      .ok (.utf8 "$.s"
        { data := [], offsets := [0, 0], validity := some [false] }) := by
  constructor
  · exact C6_utf8_event_acceptance.1 "$.s" (BytesArrayState.new true)
      .seqStartEv rfl
  · have h := C6_utf8_event_acceptance.2.2.2.2.2.1 "$.s"
      (BytesArrayState.new true) [] rfl
    rw [h]
    rfl

theorem envStep_i32Ev (b : ABuilder) (v : Int) :
    envStep b (.i32Ev v) = envI32 b v := by
  cases b <;> simp [envStep, variantStep, envI32]

theorem bytesFold_i32 :
    ∀ (bs : List Int) (q : String) (ist : IntArrayState) (off : OffsetsState),
      bytesFold (.i32 q ist) off bs =
        .ok (.i32 q
          { values := ist.values ++ bs,
            validity :=
              ist.validity.map (fun b => b ++ List.replicate bs.length true) },
          { off with pending := off.pending + bs.length }) := by
  intro bs
  induction bs with
  | nil =>
    intro q ist off
    obtain ⟨vals, valo⟩ := ist
    obtain ⟨offs, pend, ovalid⟩ := off
    cases valo <;> simp [bytesFold]
  | cons v vs ih =>
    intro q ist off
    obtain ⟨vals, valo⟩ := ist
    obtain ⟨offs, pend, ovalid⟩ := off
    rw [bytesFold]
    cases valo with
    | none =>
      rw [show OffsetsState.push_seq_elements ⟨offs, pend, ovalid⟩ 1 =
            Except.ok ⟨offs, pend + 1, ovalid⟩ from rfl, sa_bind_ok]
      rw [show envI32 (.i32 q ⟨vals, none⟩) v =
            Except.ok (.i32 q ⟨vals ++ [v], none⟩) from rfl, sa_bind_ok]
      rw [ih]
      simp [List.append_assoc, Nat.add_assoc, Nat.add_comm, Nat.add_left_comm]
    | some bits =>
      rw [show OffsetsState.push_seq_elements ⟨offs, pend, ovalid⟩ 1 =
            Except.ok ⟨offs, pend + 1, ovalid⟩ from rfl, sa_bind_ok]
      rw [show envI32 (.i32 q ⟨vals, some bits⟩) v =
            Except.ok (.i32 q ⟨vals ++ [v], some (bits ++ [true])⟩) from rfl,
        sa_bind_ok]
      rw [ih]
      simp [List.append_assoc, List.replicate_succ, Nat.add_assoc,
        Nat.add_comm, Nat.add_left_comm]

theorem bytes_equiv_inner :
    ∀ (bs : List Int) (p : String) (m : FieldMeta) (el : ABuilder)
      (off : OffsetsState),
      Except.mapError (fun e => e.annotate_unannotated "field" p)
        (do
          let r ← bytesFold el off bs
          let off3 ← r.snd.end_seq
          Except.ok (ABuilder.list p m r.fst off3))
      = envFold (.list p m el off)
          (bs.map (fun v => .seqElementEv (.i32Ev v)) ++ [.seqEndEv]) := by
  intro bs
  induction bs with
  | nil =>
    intro p m el off
    obtain ⟨offs, pend, ovalid⟩ := off
    cases ovalid <;>
      simp [bytesFold, OffsetsState.end_seq, pushValidity, sa_bind_ok,
        sa_mapError_ok, envFold_cons, envFold_nil, envStep_list_seqEnd,
        excBind_ok]
  | cons v vs ih =>
    intro p m el off
    rw [bytesFold]
    rw [show off.push_seq_elements 1 =
          Except.ok { off with pending := off.pending + 1 } from rfl,
      sa_bind_ok]
    cases h : envI32 el v with
    | error e =>
      have h2 : envStep el (.i32Ev v) = .error e := by
        rw [envStep_i32Ev, h]
      rw [List.map_cons, List.cons_append, envFold_cons,
        envStep_list_seqElement_error p m el off _ e h2]
      simp [sa_bind_error, sa_mapError_error, excBind_error,
        ABuilder.annotate_error, ABuilder.path]
    | ok el2 =>
      have h2 : envStep el (.i32Ev v) = .ok el2 := by
        rw [envStep_i32Ev, h]
      rw [List.map_cons, List.cons_append, envFold_cons,
        envStep_list_seqElement p m el el2 off _ h2, excBind_ok]
      rw [sa_bind_ok]
      exact ih p m el2 { off with pending := off.pending + 1 }

/-- C10: emitting a single bytes event to a list builder is equivalent to
emitting sequence-start, one element event per byte in order, then
sequence-end; over an integer child it appends exactly one logical row
whose committed offset slot spans the byte count, feeding every byte to
the child builder. -/
theorem C10_bytes_as_sequence :
    (∀ (p : String) (m : FieldMeta) (el : ABuilder) (off : OffsetsState)
        (bs : List Int),
      envStep (.list p m el off) (.bytesEv bs) =
        envFold (.list p m el off)
          (.seqStartEv ::
            (bs.map (fun v => .seqElementEv (.i32Ev v)) ++ [.seqEndEv]))) ∧
    (∀ (p : String) (m : FieldMeta) (q : String) (ist : IntArrayState)
        (off : OffsetsState) (bs : List Int),
      envStep (.list p m (.i32 q ist) off) (.bytesEv bs) =
        .ok (.list p m
          (.i32 q
            { values := ist.values ++ bs,
              validity :=
                ist.validity.map (fun b => b ++ List.replicate bs.length true) })
          { offsets := off.offsets ++ [off.offsets.getLastD 0 + bs.length],
            pending := 0,
            validity := off.validity.map (fun bits => bits ++ [true]) })) := by
  constructor
  · intro p m el off bs
    rw [envFold_cons, envStep_list_seqStart, excBind_ok]
    rw [envStep]
    rw [show variantStep (.list p m el off) (.bytesEv bs) =
          (do
            let off1 ← off.start_seq
            let r ← bytesFold el off1 bs
            let off3 ← r.snd.end_seq
            Except.ok (ABuilder.list p m r.fst off3)) from by
      simp [variantStep]]
    rw [show off.start_seq = Except.ok { off with pending := 0 } from rfl,
      sa_bind_ok]
    exact bytes_equiv_inner bs p m el { off with pending := 0 }
  · intro p m q ist off bs
    rw [envStep]
    rw [show variantStep (.list p m (.i32 q ist) off) (.bytesEv bs) =
          (do
            let off1 ← OffsetsState.start_seq off
            let r ← bytesFold (.i32 q ist) off1 bs
            let off3 ← r.snd.end_seq
            Except.ok (ABuilder.list p m r.fst off3)) from by
      simp [variantStep]]
    rw [show off.start_seq = Except.ok { off with pending := 0 } from rfl,
      sa_bind_ok, bytesFold_i32, sa_bind_ok]
    obtain ⟨offs, pend, ovalid⟩ := off
    cases ovalid <;>
      simp [OffsetsState.end_seq, pushValidity, sa_bind_ok, sa_mapError_ok]

theorem path_mem_paths (b : ABuilder) : b.path ∈ b.paths := by
  cases b <;> simp [ABuilder.path, ABuilder.paths]

theorem variantI32_error_fresh (b : ABuilder) (v : Int) (e : SAError)
    (h : variantI32 b v = .error e) : e.annotations = [] := by
  cases b with
  | i32 p st =>
    cases hval : st.validity <;>
      simp [variantI32, IntArrayState.push_scalar_value, pushValidity, hval,
        sa_bind_ok, exc_map_ok] at h
  | utf8 p st =>
    simp [variantI32] at h
    simp [← h, mkErr]
  | list p m el off =>
    simp [variantI32] at h
    simp [← h, mkErr]

theorem variantI32_ok_path (b : ABuilder) (v : Int) (b2 : ABuilder)
    (h : variantI32 b v = .ok b2) : b2.path = b.path := by
  cases b with
  | i32 p st =>
    cases hval : st.validity <;>
      simp [variantI32, IntArrayState.push_scalar_value, pushValidity, hval,
        sa_bind_ok, exc_map_ok] at h <;>
      simp [← h, ABuilder.path]
  | utf8 p st => simp [variantI32] at h
  | list p m el off => simp [variantI32] at h

theorem bytesFold_error_annotations :
    ∀ (bs : List Int) (el : ABuilder) (off : OffsetsState) (e : SAError),
      bytesFold el off bs = .error e →
      e.annotations = [("field", el.path)] := by
  intro bs
  induction bs with
  | nil => intro el off e h; simp [bytesFold] at h
  | cons v vs ih =>
    intro el off e h
    rw [bytesFold] at h
    rw [show off.push_seq_elements 1 =
          Except.ok { off with pending := off.pending + 1 } from rfl,
      sa_bind_ok] at h
    cases hi : envI32 el v with
    | error e1 =>
      rw [hi, sa_bind_error] at h
      cases h
      unfold envI32 at hi
      cases hvar : variantI32 el v with
      | error e0 =>
        rw [hvar, sa_mapError_error] at hi
        cases hi
        have hfresh := variantI32_error_fresh el v e0 hvar
        simp [ABuilder.annotate_error, SAError.annotate_unannotated, hfresh]
      | ok b2 =>
        rw [hvar, sa_mapError_ok] at hi
        cases hi
    | ok el2 =>
      rw [hi, sa_bind_ok] at h
      have hp : el2.path = el.path := by
        unfold envI32 at hi
        cases hvar : variantI32 el v with
        | error e0 => rw [hvar, sa_mapError_error] at hi; cases hi
        | ok b2 =>
          rw [hvar, sa_mapError_ok] at hi
          cases hi
          exact variantI32_ok_path el v el2 hvar
      rw [← hp]
      exact ih el2 { off with pending := off.pending + 1 } e h

theorem variantStep_i32_error_fresh (p : String) (st : IntArrayState)
    (ev : SerEvent) (e : SAError)
    (h : variantStep (.i32 p st) ev = .error e) : e.annotations = [] := by
  cases ev with
  | i32Ev v =>
    rw [show variantStep (.i32 p st) (.i32Ev v) = variantI32 (.i32 p st) v
      from by simp [variantStep]] at h
    exact variantI32_error_fresh _ _ _ h
  | noneEv =>
    cases hval : st.validity <;>
      simp [variantStep, IntArrayState.push_scalar_none, pushValidity, hval,
        sa_bind_ok, sa_bind_error, exc_map_ok, exc_map_error, mkErr] at h <;>
      simp [← h]
  | defaultEv =>
    cases hval : st.validity <;>
      simp [variantStep, IntArrayState.push_scalar_default, pushValidity, hval,
        sa_bind_ok, exc_map_ok] at h
  | unitEv =>
    cases hval : st.validity <;>
      simp [variantStep, IntArrayState.push_scalar_default, pushValidity, hval,
        sa_bind_ok, exc_map_ok] at h
  | _ =>
    simp [variantStep, mkErr] at h
    simp [← h]

theorem variantStep_utf8_error_fresh (p : String) (st : BytesArrayState)
    (ev : SerEvent) (e : SAError)
    (h : variantStep (.utf8 p st) ev = .error e) : e.annotations = [] := by
  cases ev with
  | i32Ev v =>
    rw [show variantStep (.utf8 p st) (.i32Ev v) = variantI32 (.utf8 p st) v
      from by simp [variantStep]] at h
    exact variantI32_error_fresh _ _ _ h
  | strEv s =>
    cases hval : st.validity <;>
      simp [variantStep, BytesArrayState.push_scalar_value, pushValidity, hval,
        sa_bind_ok, exc_map_ok] at h
  | unitVariantEv s =>
    cases hval : st.validity <;>
      simp [variantStep, BytesArrayState.push_scalar_value, pushValidity, hval,
        sa_bind_ok, exc_map_ok] at h
  | noneEv =>
    cases hval : st.validity <;>
      simp [variantStep, BytesArrayState.push_scalar_none, pushValidity, hval,
        sa_bind_ok, sa_bind_error, exc_map_ok, exc_map_error, mkErr] at h <;>
      simp [← h]
  | defaultEv =>
    cases hval : st.validity <;>
      simp [variantStep, BytesArrayState.push_scalar_default, pushValidity,
        hval, sa_bind_ok, exc_map_ok] at h
  | unitEv =>
    cases hval : st.validity <;>
      simp [variantStep, BytesArrayState.push_scalar_default, pushValidity,
        hval, sa_bind_ok, exc_map_ok] at h
  | _ =>
    simp [variantStep, mkErr] at h
    simp [← h]

theorem envStep_error_annotated :
    ∀ (b : ABuilder) (ev : SerEvent) (e : SAError),
      envStep b ev = .error e →
      ∃ q ∈ b.paths, e.annotations = [("field", q)] := by
  intro b
  induction b with
  | i32 p st =>
    intro ev e h
    rw [envStep] at h
    cases hv : variantStep (.i32 p st) ev with
    | ok b2 => rw [hv, sa_mapError_ok] at h; cases h
    | error e0 =>
      rw [hv, sa_mapError_error] at h
      cases h
      have hfresh := variantStep_i32_error_fresh p st ev e0 hv
      exact ⟨p, by simp [ABuilder.paths],
        by simp [ABuilder.annotate_error, ABuilder.path,
          SAError.annotate_unannotated, hfresh]⟩
  | utf8 p st =>
    intro ev e h
    rw [envStep] at h
    cases hv : variantStep (.utf8 p st) ev with
    | ok b2 => rw [hv, sa_mapError_ok] at h; cases h
    | error e0 =>
      rw [hv, sa_mapError_error] at h
      cases h
      have hfresh := variantStep_utf8_error_fresh p st ev e0 hv
      exact ⟨p, by simp [ABuilder.paths],
        by simp [ABuilder.annotate_error, ABuilder.path,
          SAError.annotate_unannotated, hfresh]⟩
  | list p m el off ih =>
    intro ev e h
    rw [envStep] at h
    cases hv : variantStep (.list p m el off) ev with
    | ok b2 => rw [hv, sa_mapError_ok] at h; cases h
    | error e0 =>
      rw [hv, sa_mapError_error] at h
      cases h
      have hsplit : e0.annotations = [] ∨
          ∃ q ∈ el.paths, e0.annotations = [("field", q)] := by
        cases ev with
        | i32Ev v =>
          left
          rw [show variantStep (.list p m el off) (.i32Ev v) =
                variantI32 (.list p m el off) v from by simp [variantStep]]
            at hv
          exact variantI32_error_fresh _ _ _ hv
        | seqStartEv =>
          exfalso
          simp [variantStep, OffsetsState.start_seq, exc_map_ok] at hv
        | seqElementEv v =>
          right
          rw [variantStep] at hv
          rw [show off.push_seq_elements 1 =
                Except.ok { off with pending := off.pending + 1 } from rfl,
            sa_bind_ok] at hv
          cases hc : envStep el v with
          | ok el2 => rw [hc, sa_bind_ok] at hv; simp at hv
          | error e1 =>
            rw [hc, sa_bind_error] at hv
            cases hv
            exact ih v e0 hc
        | seqEndEv =>
          exfalso
          cases hval : off.validity <;>
            simp [variantStep, OffsetsState.end_seq, pushValidity, hval,
              sa_bind_ok, exc_map_ok] at hv
        | noneEv =>
          left
          cases hval : off.validity <;>
            simp [variantStep, OffsetsState.push_seq_none, pushValidity, hval,
              sa_bind_ok, sa_bind_error, exc_map_ok, exc_map_error, mkErr]
              at hv <;>
            simp [← hv]
        | defaultEv =>
          exfalso
          cases hval : off.validity <;>
            simp [variantStep, OffsetsState.push_seq_default, pushValidity,
              hval, sa_bind_ok, exc_map_ok] at hv
        | unitEv =>
          exfalso
          cases hval : off.validity <;>
            simp [variantStep, OffsetsState.push_seq_default, pushValidity,
              hval, sa_bind_ok, exc_map_ok] at hv
        | bytesEv bs =>
          rw [variantStep] at hv
          rw [show off.start_seq =
                Except.ok { off with pending := 0 } from rfl,
            sa_bind_ok] at hv
          cases hbf : bytesFold el { off with pending := 0 } bs with
          | error e1 =>
            rw [hbf, sa_bind_error] at hv
            cases hv
            exact Or.inr ⟨el.path, path_mem_paths el,
              bytesFold_error_annotations bs el _ e0 hbf⟩
          | ok r =>
            exfalso
            rw [hbf, sa_bind_ok] at hv
            cases hval : (r.snd).validity <;>
              simp [OffsetsState.end_seq, pushValidity, hval, sa_bind_ok,
                exc_map_ok] at hv
        | boolEv v =>
          left
          simp [variantStep, mkErr] at hv
          simp [← hv]
        | strEv s =>
          left
          simp [variantStep, mkErr] at hv
          simp [← hv]
        | unitVariantEv s =>
          left
          simp [variantStep, mkErr] at hv
          simp [← hv]
        | newtypeVariantEv =>
          left
          simp [variantStep, mkErr] at hv
          simp [← hv]
        | tupleVariantStartEv =>
          left
          simp [variantStep, mkErr] at hv
          simp [← hv]
        | structVariantStartEv =>
          left
          simp [variantStep, mkErr] at hv
          simp [← hv]
      rcases hsplit with hfresh | ⟨q, hq, hann⟩
      · exact ⟨p, by simp [ABuilder.paths],
          by simp [ABuilder.annotate_error, ABuilder.path,
            SAError.annotate_unannotated, hfresh]⟩
      · refine ⟨q, ?_, ?_⟩
        · simp [ABuilder.paths]
          exact Or.inr hq
        · simp [ABuilder.annotate_error, SAError.annotate_unannotated, hann]

/-- C7: every emission dispatched through the builder envelope wraps a
failing variant result with the wrapped variant annotator before
propagation, and every error the envelope returns carries the dotted field
path of the column where the failure occurred as its "field" annotation. -/
theorem C7_error_path_annotation :
    (∀ (b : ABuilder) (ev : SerEvent),
      envStep b ev = (variantStep b ev).mapError b.annotate_error) ∧
    (∀ (b : ABuilder) (ev : SerEvent) (e : SAError),
      envStep b ev = .error e →
      e.annotations ≠ [] ∧
        ∃ q ∈ b.paths, e.annotations = [("field", q)]) := by
  constructor
  · intro b ev
    rw [envStep]
  · intro b ev e h
    obtain ⟨q, hq, hann⟩ := envStep_error_annotated b ev e h
    exact ⟨by simp [hann], q, hq, hann⟩

theorem C7_witness :
    ({ msg := "Utf8Builder cannot serialize i32",
       annotations := [("field", "x")] } : SAError).annotations ≠ [] ∧
    ∃ q ∈ (ABuilder.utf8 "x" (BytesArrayState.new true)).paths,
      ({ msg := "Utf8Builder cannot serialize i32",
         annotations := [("field", "x")] } : SAError).annotations =
        [("field", q)] :=
  C7_error_path_annotation.2 (.utf8 "x" (BytesArrayState.new true))
    (.i32Ev 0) _
    (by simp [envStep, variantStep, variantI32, sa_mapError_error, mkErr,
      ABuilder.annotate_error, ABuilder.path, SAError.annotate_unannotated])

theorem getLastD_append_singleton :
    ∀ (l : List Nat) (x : Nat) (d : Nat), (l ++ [x]).getLastD d = x := by
  intro l
  induction l with
  | nil => intro x d; rfl
  | cons a l ih => intro x d; rw [List.cons_append, List.getLastD_cons]; exact ih x a

theorem mem_getLast?_getLastD (l : List Nat) (y : Nat)
    (h : l.getLast? = some y) : l.getLastD 0 = y := by
  rw [List.getLastD_eq_getLast?, h]
  rfl

theorem chain'_append_le (l : List Nat) (k : Nat)
    (hl : List.Chain' (· ≤ ·) l) :
    List.Chain' (· ≤ ·) (l ++ [l.getLastD 0 + k]) := by
  refine List.chain'_append.2 ⟨hl, List.chain'_singleton _, ?_⟩
  intro a ha b hb
  simp only [List.head?_cons, Option.mem_def, Option.some.injEq] at hb
  subst hb
  rw [mem_getLast?_getLastD l a ha]
  omega

theorem getLastD_default_irrel :
    ∀ (l : List Nat) (a d1 d2 : Nat),
      (a :: l).getLastD d1 = (a :: l).getLastD d2 := by
  intro l
  induction l with
  | nil => intro a d1 d2; rfl
  | cons b bs ih =>
    intro a d1 d2
    rw [List.getLastD_cons d1 a (b :: bs), List.getLastD_cons d2 a (b :: bs)]

theorem zeroWidthOk_append :
    ∀ (offs : List Nat) (bits : List Bool) (x : Nat) (b : Bool),
      bits.length + 1 = offs.length →
      zeroWidthOk offs bits = true →
      (b = false → x = offs.getLastD 0) →
      zeroWidthOk (offs ++ [x]) (bits ++ [b]) = true := by
  intro offs
  induction offs with
  | nil => intro bits x b hlen hzw hb; simp at hlen
  | cons o1 rest ih =>
    intro bits x b hlen hzw hb
    cases rest with
    | nil =>
      have hbits : bits = [] := by
        cases bits with
        | nil => rfl
        | cons c cs => simp at hlen
      subst hbits
      cases b with
      | true => simp [zeroWidthOk]
      | false =>
        have hx : x = o1 := by
          rw [hb rfl]
          rfl
        subst hx
        simp [zeroWidthOk]
    | cons o2 os =>
      cases bits with
      | nil => simp at hlen
      | cons b1 bs =>
        rw [show ((o1 :: o2 :: os) ++ [x]) = o1 :: o2 :: (os ++ [x]) by simp]
        rw [show ((b1 :: bs) ++ [b]) = b1 :: (bs ++ [b]) by simp]
        rw [zeroWidthOk] at hzw ⊢
        rw [Bool.and_eq_true] at hzw
        rw [Bool.and_eq_true]
        refine ⟨hzw.1, ?_⟩
        rw [show o2 :: (os ++ [x]) = (o2 :: os) ++ [x] by simp]
        refine ih bs x b (by simpa using hlen) hzw.2 ?_
        intro hbf
        rw [hb hbf, List.getLastD_cons]
        exact getLastD_default_irrel os o2 o1 0

theorem offsOk_new (nullable : Bool) : offsOk (OffsetsState.new nullable) := by
  cases nullable <;>
    simp [offsOk, OffsetsState.new, zeroWidthOk]

theorem offsOk_commit (o : OffsetsState) (k : Nat) (ho : offsOk o) :
    offsOk { offsets := o.offsets ++ [o.offsets.getLastD 0 + k],
             pending := 0,
             validity := o.validity.map (fun bits => bits ++ [true]) } := by
  obtain ⟨hne, hchain, hval⟩ := ho
  refine ⟨by simp, chain'_append_le o.offsets k hchain, ?_⟩
  intro bits2 h2
  cases hv : o.validity with
  | none => rw [hv] at h2; simp at h2
  | some bits =>
    rw [hv] at h2
    rw [show Option.map (fun bits => bits ++ [true]) (some bits) =
          some (bits ++ [true]) from rfl] at h2
    rw [Option.some.injEq] at h2
    subst h2
    obtain ⟨hlen, hzw⟩ := hval bits hv
    constructor
    · simp [hlen]
    · exact zeroWidthOk_append o.offsets bits _ true hlen hzw (by simp)

theorem offsOk_none_commit (o : OffsetsState) (bits : List Bool)
    (h : o.validity = some bits) (ho : offsOk o) :
    offsOk { offsets := o.offsets ++ [o.offsets.getLastD 0],
             pending := 0,
             validity := some (bits ++ [false]) } := by
  obtain ⟨hne, hchain, hval⟩ := ho
  obtain ⟨hlen, hzw⟩ := hval bits h
  refine ⟨by simp, ?_, ?_⟩
  · have := chain'_append_le o.offsets 0 hchain
    simpa using this
  · intro bits2 h2
    simp only [Option.some.injEq] at h2
    subst h2
    constructor
    · simp [hlen]
    · exact zeroWidthOk_append o.offsets bits _ false hlen hzw (by simp)

theorem C5_fold :
    ∀ (evs : List SerEvent) (p m q : String) (ist : IntArrayState)
      (off : OffsetsState) (b2 : ABuilder),
      (∀ e ∈ evs, isListEvent e = true) →
      offsOk off →
      envFold (.list p m (.i32 q ist) off) evs = .ok b2 →
      ∃ ist2 off2,
        b2 = .list p m (.i32 q ist2) off2 ∧
        offsOk off2 ∧
        off2.offsets.length = off.offsets.length + rowsCommitted evs ∧
        off2.validity.isSome = off.validity.isSome ∧
        ist2.values.length = ist.values.length + elementsOf evs := by
  intro evs
  induction evs with
  | nil =>
    intro p m q ist off b2 hall ho hfold
    rw [envFold_nil] at hfold
    cases hfold
    exact ⟨ist, off, rfl, ho, by simp [rowsCommitted], rfl,
      by simp [elementsOf]⟩
  | cons e evs ih =>
    intro p m q ist off b2 hall ho hfold
    have he : isListEvent e = true := hall e (by simp)
    have hall2 : ∀ e2 ∈ evs, isListEvent e2 = true :=
      fun e2 h2 => hall e2 (by simp [h2])
    rw [envFold_cons] at hfold
    cases e with
    | seqStartEv =>
      rw [envStep_list_seqStart, excBind_ok] at hfold
      obtain ⟨ist2, off2, hb, ho2, hlen, hsome, hvals⟩ :=
        ih p m q ist { off with pending := 0 } b2 hall2 ho hfold
      exact ⟨ist2, off2, hb, ho2,
        by simpa [rowsCommitted, List.countP_cons] using hlen, hsome,
        by simpa [elementsOf, List.countP_cons] using hvals⟩
    | seqElementEv v =>
      cases v with
      | i32Ev v0 =>
        rw [envStep_list_seqElement p m _ _ off _
          (envStep_i32_value q ist v0), excBind_ok] at hfold
        obtain ⟨ist2, off2, hb, ho2, hlen, hsome, hvals⟩ :=
          ih p m q _ { off with pending := off.pending + 1 } b2 hall2 ho hfold
        refine ⟨ist2, off2, hb, ho2,
          by simpa [rowsCommitted, List.countP_cons] using hlen, hsome, ?_⟩
        rw [hvals]
        simp [elementsOf, List.countP_cons]
        omega
      | _ => simp [isListEvent] at he
    | seqEndEv =>
      rw [envStep_list_seqEnd, excBind_ok] at hfold
      obtain ⟨ist2, off2, hb, ho2, hlen, hsome, hvals⟩ :=
        ih p m q ist _ b2 hall2 (offsOk_commit off off.pending ho) hfold
      refine ⟨ist2, off2, hb, ho2, ?_, ?_, ?_⟩
      · rw [hlen]
        simp [rowsCommitted, List.countP_cons]
        omega
      · rw [hsome]
        cases off.validity <;> simp
      · simpa [elementsOf, List.countP_cons] using hvals
    | noneEv =>
      cases hval : off.validity with
      | none =>
        have hs : envStep (.list p m (.i32 q ist) off) .noneEv =
            .error (SAError.annotate_unannotated
              (mkErr "Cannot push null for non-nullable array") "field" p) := by
          rw [envStep]
          rw [show variantStep (.list p m (.i32 q ist) off) .noneEv =
                (off.push_seq_none).map (.list p m (.i32 q ist)) from by
              simp [variantStep]]
          rw [show off.push_seq_none =
                (Except.error (mkErr "Cannot push null for non-nullable array") :
                  Except SAError OffsetsState) from by
              simp [OffsetsState.push_seq_none, pushValidity, hval,
                sa_bind_error]]
          rfl
        rw [hs, excBind_error] at hfold
        cases hfold
      | some bits =>
        rw [envStep_list_none p m _ off bits hval, excBind_ok] at hfold
        obtain ⟨ist2, off2, hb, ho2, hlen, hsome, hvals⟩ :=
          ih p m q ist _ b2 hall2 (offsOk_none_commit off bits hval ho) hfold
        refine ⟨ist2, off2, hb, ho2, ?_, ?_, ?_⟩
        · rw [hlen]
          simp [rowsCommitted, List.countP_cons]
          omega
        · rw [hsome]
          simp
        · simpa [elementsOf, List.countP_cons] using hvals
    | _ => simp [isListEvent] at he

/-- C5: for every event sequence a list builder accepts, the offsets array
is non-decreasing with length equal to the committed row count plus one,
rows with a cleared validity bit are zero-width, and the child holds one
value per element event; per event, sequence-start opens a slot, an
element feeds the child and increments the pending count by one,
sequence-end commits the final offset, and none commits a zero-width slot
with the validity bit cleared while leaving the child untouched. -/
theorem C5_list_offsets_invariant :
    (∀ (nullable : Bool) (evs : List SerEvent) (b2 : ABuilder),
      (∀ e ∈ evs, isListEvent e = true) →
      envFold (.list "$" "element"
          (.i32 "$.element" (IntArrayState.new false))
          (OffsetsState.new nullable)) evs = .ok b2 →
      ∃ ist2 off2,
        b2 = .list "$" "element" (.i32 "$.element" ist2) off2 ∧
        List.Chain' (· ≤ ·) off2.offsets ∧
        off2.offsets.length = rowsCommitted evs + 1 ∧
        (∀ bits, off2.validity = some bits →
          bits.length = rowsCommitted evs ∧
          zeroWidthOk off2.offsets bits = true) ∧
        ist2.values.length = elementsOf evs) ∧
    (∀ (p : String) (m : FieldMeta) (el : ABuilder) (off : OffsetsState),
      envStep (.list p m el off) .seqStartEv =
        .ok (.list p m el { off with pending := 0 })) ∧
    (∀ (p : String) (m : FieldMeta) (el el2 : ABuilder) (off : OffsetsState)
        (ev : SerEvent),
      envStep el ev = .ok el2 →
      envStep (.list p m el off) (.seqElementEv ev) =
        .ok (.list p m el2 { off with pending := off.pending + 1 })) ∧
    (∀ (p : String) (m : FieldMeta) (el : ABuilder) (off : OffsetsState),
      envStep (.list p m el off) .seqEndEv =
        .ok (.list p m el
          { offsets := off.offsets ++ [off.offsets.getLastD 0 + off.pending],
            pending := 0,
            validity := off.validity.map (fun bits => bits ++ [true]) })) ∧
    (∀ (p : String) (m : FieldMeta) (el : ABuilder) (off : OffsetsState)
        (bits : List Bool),
      off.validity = some bits →
      envStep (.list p m el off) .noneEv =
        .ok (.list p m el
          { offsets := off.offsets ++ [off.offsets.getLastD 0],
            pending := 0, validity := some (bits ++ [false]) })) := by
  refine ⟨?_, envStep_list_seqStart, envStep_list_seqElement,
    envStep_list_seqEnd, envStep_list_none⟩
  intro nullable evs b2 hall hfold
  obtain ⟨ist2, off2, hb, ⟨hne, hchain, hval⟩, hlen, hsome, hvals⟩ :=
    C5_fold evs "$" "element" "$.element" (IntArrayState.new false)
      (OffsetsState.new nullable) b2 hall (offsOk_new nullable) hfold
  refine ⟨ist2, off2, hb, hchain, ?_, ?_, ?_⟩
  · rw [hlen]
    simp [OffsetsState.new]
    omega
  · intro bits hb2
    obtain ⟨hl2, hzw⟩ := hval bits hb2
    refine ⟨?_, hzw⟩
    rw [hlen] at hl2
    simp [OffsetsState.new] at hl2
    omega
  · rw [hvals]
    simp [IntArrayState.new]

theorem C5_witness :
    ∃ ist2 off2,
      (ABuilder.list "$" "element"
          (.i32 "$.element" { values := [1, 2], validity := none })
          { offsets := [0, 2, 2], pending := 0,
            validity := some [true, false] }) =
        .list "$" "element" (.i32 "$.element" ist2) off2 ∧
      List.Chain' (· ≤ ·) off2.offsets ∧
      off2.offsets.length =
        rowsCommitted [.seqStartEv, .seqElementEv (.i32Ev 1),
          .seqElementEv (.i32Ev 2), .seqEndEv, .noneEv] + 1 ∧
      (∀ bits, off2.validity = some bits →
        bits.length =
          rowsCommitted [.seqStartEv, .seqElementEv (.i32Ev 1),
            .seqElementEv (.i32Ev 2), .seqEndEv, .noneEv] ∧
        zeroWidthOk off2.offsets bits = true) ∧
      ist2.values.length =
        elementsOf [.seqStartEv, .seqElementEv (.i32Ev 1),
          .seqElementEv (.i32Ev 2), .seqEndEv, .noneEv] := by
  have hfold : envFold (.list "$" "element"
      (.i32 "$.element" (IntArrayState.new false)) (OffsetsState.new true))
      [.seqStartEv, .seqElementEv (.i32Ev 1), .seqElementEv (.i32Ev 2),
        .seqEndEv, .noneEv] =
      .ok (.list "$" "element"
        (.i32 "$.element" { values := [1, 2], validity := none })
        { offsets := [0, 2, 2], pending := 0,
          validity := some [true, false] }) := by
    rw [envFold_cons, envStep_list_seqStart, excBind_ok]
    rw [envFold_cons,
      envStep_list_seqElement _ _ _ _ _ _
        (envStep_i32_value "$.element" (IntArrayState.new false) 1),
      excBind_ok]
    rw [envFold_cons,
      envStep_list_seqElement _ _ _ _ _ _
        (envStep_i32_value "$.element" _ 2),
      excBind_ok]
    rw [envFold_cons, envStep_list_seqEnd, excBind_ok]
    rw [envFold_cons, envStep_list_none _ _ _ _ [true]
        (by simp [OffsetsState.new]), excBind_ok,
      envFold_nil]
    simp [IntArrayState.new, OffsetsState.new]
  exact C5_list_offsets_invariant.1 true
    [.seqStartEv, .seqElementEv (.i32Ev 1), .seqElementEv (.i32Ev 2),
      .seqEndEv, .noneEv] _ (by decide) hfold

theorem envFold_i32_rows :
    ∀ (xs : List (Option Int)) (p : String) (vals : List Int)
      (bits : List Bool),
      envFold (.i32 p ⟨vals, some bits⟩) (xs.map rowEventI32) =
        .ok (.i32 p ⟨vals ++ xs.map (fun o => o.getD 0),
                     some (bits ++ xs.map Option.isSome)⟩) := by
  intro xs
  induction xs with
  | nil => intro p vals bits; simp [envFold_nil]
  | cons x xs ih =>
    intro p vals bits
    cases x with
    | some v =>
      rw [List.map_cons, envFold_cons,
        show rowEventI32 (some v) = .i32Ev v from rfl,
        envStep_i32_value, excBind_ok]
      rw [show ({ values := vals, validity := some bits } :
            IntArrayState).values = vals from rfl]
      rw [show Option.map (fun bits => bits ++ [true])
            ({ values := vals, validity := some bits } :
              IntArrayState).validity = some (bits ++ [true]) from rfl]
      rw [ih]
      simp
    | none =>
      rw [List.map_cons, envFold_cons,
        show rowEventI32 none = .noneEv from rfl,
        envStep_i32_none p _ bits rfl, excBind_ok]
      rw [show ({ values := vals, validity := some bits } :
            IntArrayState).values = vals from rfl]
      rw [ih]
      simp

theorem envFold_i32_req :
    ∀ (xs : List Int) (p : String) (vals : List Int),
      envFold (.i32 p ⟨vals, none⟩) ((xs.map some).map rowEventI32) =
        .ok (.i32 p ⟨vals ++ xs, none⟩) := by
  intro xs
  induction xs with
  | nil => intro p vals; simp [envFold_nil]
  | cons x xs ih =>
    intro p vals
    rw [List.map_cons, List.map_cons, envFold_cons,
      show rowEventI32 (some x) = .i32Ev x from rfl,
      envStep_i32_value, excBind_ok]
    rw [show ({ values := vals, validity := none } :
          IntArrayState).values = vals from rfl]
    rw [show Option.map (fun bits => bits ++ [true])
          ({ values := vals, validity := none } :
            IntArrayState).validity = none from rfl]
    rw [ih]
    simp

theorem decodePrim_map :
    ∀ (xs : List (Option Int)),
      decodePrim (xs.map (fun o => o.getD 0)) (xs.map Option.isSome) = xs := by
  intro xs
  induction xs with
  | nil => rfl
  | cons x xs ih =>
    cases x <;> simp [decodePrim, ih]

theorem envFold_utf8_rows :
    ∀ (xs : List (Option (List Nat))) (p : String) (data : List Nat)
      (offs : List Nat) (bits : List Bool),
      offs.getLastD 0 = data.length →
      envFold (.utf8 p ⟨data, offs, some bits⟩) (xs.map rowEventUtf8) =
        .ok (.utf8 p ⟨data ++ flattenSomes xs,
                      offs ++ offsetsFrom data.length xs,
                      some (bits ++ xs.map Option.isSome)⟩) := by
  intro xs
  induction xs with
  | nil =>
    intro p data offs bits hlast
    simp [envFold_nil, flattenSomes, offsetsFrom]
  | cons x xs ih =>
    intro p data offs bits hlast
    cases x with
    | some s =>
      rw [List.map_cons, envFold_cons,
        show rowEventUtf8 (some s) = .strEv s from rfl,
        envStep_utf8_str, excBind_ok]
      rw [show ({ data := data, offsets := offs, validity := some bits } :
            BytesArrayState).data = data from rfl]
      rw [show ({ data := data, offsets := offs, validity := some bits } :
            BytesArrayState).offsets = offs from rfl]
      rw [show Option.map (fun bits => bits ++ [true])
            ({ data := data, offsets := offs, validity := some bits } :
              BytesArrayState).validity = some (bits ++ [true]) from rfl]
      rw [hlast]
      rw [ih p (data ++ s) (offs ++ [data.length + s.length]) (bits ++ [true])
        (by rw [getLastD_append_singleton]; simp)]
      simp [flattenSomes, offsetsFrom]
    | none =>
      rw [List.map_cons, envFold_cons,
        show rowEventUtf8 none = .noneEv from rfl,
        envStep_utf8_none p _ bits rfl, excBind_ok]
      rw [show ({ data := data, offsets := offs, validity := some bits } :
            BytesArrayState).data = data from rfl]
      rw [show ({ data := data, offsets := offs, validity := some bits } :
            BytesArrayState).offsets = offs from rfl]
      rw [hlast]
      rw [ih p data (offs ++ [data.length]) (bits ++ [false])
        (by rw [getLastD_append_singleton])]
      simp [flattenSomes, offsetsFrom]

theorem envFold_utf8_req :
    ∀ (xs : List (List Nat)) (p : String) (data : List Nat)
      (offs : List Nat),
      offs.getLastD 0 = data.length →
      envFold (.utf8 p ⟨data, offs, none⟩) ((xs.map some).map rowEventUtf8) =
        .ok (.utf8 p ⟨data ++ flattenSomes (xs.map some),
                      offs ++ offsetsFrom data.length (xs.map some),
                      none⟩) := by
  intro xs
  induction xs with
  | nil =>
    intro p data offs hlast
    simp [envFold_nil, flattenSomes, offsetsFrom]
  | cons s xs ih =>
    intro p data offs hlast
    rw [List.map_cons, List.map_cons, envFold_cons,
      show rowEventUtf8 (some s) = .strEv s from rfl,
      envStep_utf8_str, excBind_ok]
    rw [show ({ data := data, offsets := offs, validity := none } :
          BytesArrayState).data = data from rfl]
    rw [show ({ data := data, offsets := offs, validity := none } :
          BytesArrayState).offsets = offs from rfl]
    rw [show Option.map (fun bits => bits ++ [true])
          ({ data := data, offsets := offs, validity := none } :
            BytesArrayState).validity = none from rfl]
    rw [hlast]
    rw [ih p (data ++ s) (offs ++ [data.length + s.length])
      (by rw [getLastD_append_singleton]; simp)]
    simp [flattenSomes, offsetsFrom]

theorem decodeSlices_spec {α : Type} :
    ∀ (xs : List (Option (List α))) (data0 : List α),
      decodeSlices (data0 ++ flattenSomes xs)
        (data0.length :: offsetsFrom data0.length xs)
        (xs.map Option.isSome) = xs := by
  intro xs
  induction xs with
  | nil => intro data0; rfl
  | cons x xs ih =>
    intro data0
    cases x with
    | some s =>
      rw [show flattenSomes (some s :: xs) = s ++ flattenSomes xs from rfl]
      rw [show offsetsFrom data0.length (some s :: xs) =
            (data0.length + s.length) ::
              offsetsFrom (data0.length + s.length) xs from rfl]
      rw [List.map_cons, show Option.isSome (some s) = true from rfl]
      rw [decodeSlices]
      rw [if_pos rfl]
      have hslice :
          (((data0 ++ (s ++ flattenSomes xs)).take
            (data0.length + s.length)).drop data0.length) = s := by
        rw [← List.append_assoc]
        rw [List.take_left' (by simp)]
        rw [List.drop_left]
      rw [hslice]
      have htail := ih (data0 ++ s)
      rw [List.append_assoc, List.length_append] at htail
      rw [htail]
    | none =>
      rw [show flattenSomes (none :: xs) = flattenSomes xs from rfl]
      rw [show offsetsFrom data0.length (none :: xs) =
            data0.length :: offsetsFrom data0.length xs from rfl]
      rw [List.map_cons, show Option.isSome (none : Option (List α)) = false
        from rfl]
      rw [decodeSlices]
      rw [if_neg (by simp)]
      rw [ih data0]

theorem decodeSlicesReq_spec {α : Type} :
    ∀ (xs : List (List α)) (data0 : List α),
      decodeSlicesReq (data0 ++ flattenSomes (xs.map some))
        (data0.length :: offsetsFrom data0.length (xs.map some)) = xs := by
  intro xs
  induction xs with
  | nil => intro data0; rfl
  | cons s xs ih =>
    intro data0
    rw [List.map_cons]
    rw [show flattenSomes (some s :: xs.map some) =
          s ++ flattenSomes (xs.map some) from rfl]
    rw [show offsetsFrom data0.length (some s :: xs.map some) =
          (data0.length + s.length) ::
            offsetsFrom (data0.length + s.length) (xs.map some) from rfl]
    rw [decodeSlicesReq]
    have hslice :
        (((data0 ++ (s ++ flattenSomes (xs.map some))).take
          (data0.length + s.length)).drop data0.length) = s := by
      rw [← List.append_assoc]
      rw [List.take_left' (by simp)]
      rw [List.drop_left]
    rw [hslice]
    have htail := ih (data0 ++ s)
    rw [List.append_assoc, List.length_append] at htail
    rw [htail]


theorem envFold_list_elems :
    ∀ (l : List Int) (p m q : String) (vals : List Int) (off : OffsetsState),
      envFold (.list p m (.i32 q ⟨vals, none⟩) off)
          (l.map (fun v => .seqElementEv (.i32Ev v))) =
        .ok (.list p m (.i32 q ⟨vals ++ l, none⟩)
          { off with pending := off.pending + l.length }) := by
  intro l
  induction l with
  | nil => intro p m q vals off; simp [envFold_nil]
  | cons v l ih =>
    intro p m q vals off
    rw [List.map_cons, envFold_cons,
      envStep_list_seqElement _ _ _ _ _ _ (envStep_i32_value q ⟨vals, none⟩ v),
      excBind_ok]
    dsimp only [Option.map]
    rw [ih]
    simp
    omega

theorem envFold_list_row_some (l : List Int) (p m q : String)
    (vals : List Int) (off : OffsetsState) :
    envFold (.list p m (.i32 q ⟨vals, none⟩) off) (rowEventsList (some l)) =
      .ok (.list p m (.i32 q ⟨vals ++ l, none⟩)
        ⟨off.offsets ++ [off.offsets.getLastD 0 + l.length], 0,
          off.validity.map (fun b => b ++ [true])⟩) := by
  rw [show rowEventsList (some l) =
        .seqStartEv ::
          (l.map (fun v => .seqElementEv (.i32Ev v)) ++ [.seqEndEv])
        from rfl]
  rw [envFold_cons, envStep_list_seqStart, excBind_ok]
  rw [envFold_append, envFold_list_elems, excBind_ok]
  rw [envFold_cons, envStep_list_seqEnd, excBind_ok, envFold_nil]
  dsimp only
  simp

theorem envFold_list_row_none (p m q : String) (vals : List Int)
    (off : OffsetsState) (bits : List Bool) (h : off.validity = some bits) :
    envFold (.list p m (.i32 q ⟨vals, none⟩) off) (rowEventsList none) =
      .ok (.list p m (.i32 q ⟨vals, none⟩)
        ⟨off.offsets ++ [off.offsets.getLastD 0], 0,
          some (bits ++ [false])⟩) := by
  rw [show rowEventsList none = [.noneEv] from rfl]
  rw [envFold_cons, envStep_list_none _ _ _ _ bits h, excBind_ok, envFold_nil]

theorem envFold_list_rows :
    ∀ (xs : List (Option (List Int))) (p m q : String) (vals : List Int)
      (offs : List Nat) (bits : List Bool),
      offs.getLastD 0 = vals.length →
      envFold (.list p m (.i32 q ⟨vals, none⟩) ⟨offs, 0, some bits⟩)
          (xs.flatMap rowEventsList) =
        .ok (.list p m (.i32 q ⟨vals ++ flattenSomes xs, none⟩)
          ⟨offs ++ offsetsFrom vals.length xs, 0,
            some (bits ++ xs.map Option.isSome)⟩) := by
  intro xs
  induction xs with
  | nil =>
    intro p m q vals offs bits hlast
    simp [envFold_nil, flattenSomes, offsetsFrom]
  | cons x xs ih =>
    intro p m q vals offs bits hlast
    rw [List.flatMap_cons, envFold_append]
    cases x with
    | some l =>
      rw [envFold_list_row_some, excBind_ok]
      dsimp only [Option.map]
      rw [hlast]
      rw [ih p m q (vals ++ l) (offs ++ [vals.length + l.length])
        (bits ++ [true]) (by rw [getLastD_append_singleton]; simp)]
      simp [flattenSomes, offsetsFrom]
    | none =>
      rw [envFold_list_row_none _ _ _ _ _ bits rfl, excBind_ok]
      dsimp only
      rw [hlast]
      rw [ih p m q vals (offs ++ [vals.length]) (bits ++ [false])
        (by rw [getLastD_append_singleton])]
      simp [flattenSomes, offsetsFrom]

theorem envFold_list_req :
    ∀ (xs : List (List Int)) (p m q : String) (vals : List Int)
      (offs : List Nat),
      offs.getLastD 0 = vals.length →
      envFold (.list p m (.i32 q ⟨vals, none⟩) ⟨offs, 0, none⟩)
          ((xs.map some).flatMap rowEventsList) =
        .ok (.list p m (.i32 q ⟨vals ++ flattenSomes (xs.map some), none⟩)
          ⟨offs ++ offsetsFrom vals.length (xs.map some), 0, none⟩) := by
  intro xs
  induction xs with
  | nil =>
    intro p m q vals offs hlast
    simp [envFold_nil, flattenSomes, offsetsFrom]
  | cons l xs ih =>
    intro p m q vals offs hlast
    rw [List.map_cons, List.flatMap_cons, envFold_append]
    rw [envFold_list_row_some, excBind_ok]
    dsimp only [Option.map]
    rw [hlast]
    rw [ih p m q (vals ++ l) (offs ++ [vals.length + l.length])
      (by rw [getLastD_append_singleton]; simp)]
    simp [flattenSomes, offsetsFrom]

theorem roundtripI32Opt_ok (xs : List (Option Int)) :
    roundtripI32Opt xs = .ok xs := by
  have hEnc : encodeI32 true xs =
      .ok (.i32 "$" ⟨xs.map (fun o => o.getD 0),
        some (xs.map Option.isSome)⟩) := by
    unfold encodeI32
    rw [show IntArrayState.new true = (⟨[], some []⟩ : IntArrayState)
      from rfl]
    rw [envFold_i32_rows]
    simp
  unfold roundtripI32Opt
  rw [hEnc]
  dsimp only [decodeI32Col]
  rw [decodePrim_map]

theorem roundtripI32Req_ok (xs : List Int) : roundtripI32Req xs = .ok xs := by
  have hEnc : encodeI32 false (xs.map some) =
      .ok (.i32 "$" ⟨xs, none⟩) := by
    unfold encodeI32
    rw [show IntArrayState.new false = (⟨[], none⟩ : IntArrayState) from rfl]
    rw [envFold_i32_req]
    simp
  unfold roundtripI32Req
  rw [hEnc]
  dsimp only [decodeI32ColReq]

theorem roundtripUtf8Opt_ok (xs : List (Option (List Nat))) :
    roundtripUtf8Opt xs = .ok xs := by
  have hEnc : encodeUtf8 true xs =
      .ok (.utf8 "$" ⟨flattenSomes xs, 0 :: offsetsFrom 0 xs,
        some (xs.map Option.isSome)⟩) := by
    unfold encodeUtf8
    rw [show BytesArrayState.new true =
          (⟨[], [0], some []⟩ : BytesArrayState) from rfl]
    rw [envFold_utf8_rows xs "$" [] [0] [] rfl]
    simp [offsetsFrom]
  unfold roundtripUtf8Opt
  rw [hEnc]
  dsimp only [decodeUtf8Col]
  have hdec := decodeSlices_spec xs ([] : List Nat)
  simp only [List.nil_append, List.length_nil] at hdec
  rw [hdec]

theorem roundtripUtf8Req_ok (xs : List (List Nat)) :
    roundtripUtf8Req xs = .ok xs := by
  have hEnc : encodeUtf8 false (xs.map some) =
      .ok (.utf8 "$" ⟨flattenSomes (xs.map some),
        0 :: offsetsFrom 0 (xs.map some), none⟩) := by
    unfold encodeUtf8
    rw [show BytesArrayState.new false =
          (⟨[], [0], none⟩ : BytesArrayState) from rfl]
    rw [envFold_utf8_req xs "$" [] [0] rfl]
    simp [offsetsFrom]
  unfold roundtripUtf8Req
  rw [hEnc]
  dsimp only [decodeUtf8ColReq]
  have hdec := decodeSlicesReq_spec xs ([] : List Nat)
  simp only [List.nil_append, List.length_nil] at hdec
  rw [hdec]

theorem roundtripListI32Opt_ok (xs : List (Option (List Int))) :
    roundtripListI32Opt xs = .ok xs := by
  have hEnc : encodeListI32 true xs =
      .ok (.list "$" "element" (.i32 "$.element" ⟨flattenSomes xs, none⟩)
        ⟨0 :: offsetsFrom 0 xs, 0, some (xs.map Option.isSome)⟩) := by
    unfold encodeListI32
    rw [show IntArrayState.new false = (⟨[], none⟩ : IntArrayState) from rfl,
      show OffsetsState.new true =
        (⟨[0], 0, some []⟩ : OffsetsState) from rfl]
    rw [envFold_list_rows xs "$" "element" "$.element" [] [0] [] rfl]
    simp [offsetsFrom]
  unfold roundtripListI32Opt
  rw [hEnc]
  dsimp only [decodeListI32Col]
  have hdec := decodeSlices_spec xs ([] : List Int)
  simp only [List.nil_append, List.length_nil] at hdec
  rw [hdec]

theorem roundtripListI32Req_ok (xs : List (List Int)) :
    roundtripListI32Req xs = .ok xs := by
  have hEnc : encodeListI32 false (xs.map some) =
      .ok (.list "$" "element"
        (.i32 "$.element" ⟨flattenSomes (xs.map some), none⟩)
        ⟨0 :: offsetsFrom 0 (xs.map some), 0, none⟩) := by
    unfold encodeListI32
    rw [show IntArrayState.new false = (⟨[], none⟩ : IntArrayState) from rfl,
      show OffsetsState.new false = (⟨[0], 0, none⟩ : OffsetsState) from rfl]
    rw [envFold_list_req xs "$" "element" "$.element" [] [0] rfl]
    simp [offsetsFrom]
  unfold roundtripListI32Req
  rw [hEnc]
  dsimp only [decodeListI32ColReq]
  have hdec := decodeSlicesReq_spec xs ([] : List Int)
  simp only [List.nil_append, List.length_nil] at hdec
  rw [hdec]

/-- C1: encoding a sequence of generic values through the builders into a
column array and decoding it back reproduces the original sequence exactly,
None placement included, for the modelled field kinds (32-bit integer,
utf8 string, list of 32-bit integers) in both the nullable and the
non-nullable configuration. -/
theorem C1_round_trip :
    (∀ xs : List (Option Int), roundtripI32Opt xs = .ok xs) ∧
    (∀ xs : List Int, roundtripI32Req xs = .ok xs) ∧
    (∀ xs : List (Option (List Nat)), roundtripUtf8Opt xs = .ok xs) ∧
    (∀ xs : List (List Nat), roundtripUtf8Req xs = .ok xs) ∧
    (∀ xs : List (Option (List Int)), roundtripListI32Opt xs = .ok xs) ∧
    (∀ xs : List (List Int), roundtripListI32Req xs = .ok xs) :=
  ⟨roundtripI32Opt_ok, roundtripI32Req_ok, roundtripUtf8Opt_ok,
    roundtripUtf8Req_ok, roundtripListI32Opt_ok, roundtripListI32Req_ok⟩
